import Mathlib

/-!
Formal model of the HatiData local agent-state engine and its MCP tool
dispatcher, as implemented in sdk/python/hatidata_agent/local_engine.py and
sdk/python/hatidata_agent/mcp_server.py of the HatiData-SDKs repository.
Database tables are modelled as Lean lists of typed rows, the SQL statements
issued by the engine as the corresponding list operations, and library calls
of the Python code (hashlib.sha256, json.dumps and json.loads, str.split,
str.strip, str.lower) as executable Lean functions defined below.
-/

/-! ## Python string primitives -/

/-- Whitespace characters recognised by Python str.split and str.strip
(ASCII range; the engine only meets ASCII whitespace). -/
def isPySpace (c : Char) : Bool :=
  c = ' ' || c = '\t' || c = '\n' || c = '\r' || c = Char.ofNat 11 || c = Char.ofNat 12

/-- Scanner of pySplit: walk the characters carrying the current token in
reverse, closing the token at each whitespace run. -/
def pySplitAux : List Char → List Char → List String
  | [], acc => if acc = [] then [] else [String.mk acc.reverse]
  | c :: rest, acc =>
    if isPySpace c then
      if acc = [] then pySplitAux rest []
      else String.mk acc.reverse :: pySplitAux rest []
    else pySplitAux rest (c :: acc)

/-- Model of Python str.split with no separator argument: split on runs of
whitespace, dropping empty pieces. -/
def pySplit (s : String) : List String := pySplitAux s.data []

/-- Model of Python str.strip with no argument: drop leading and trailing
whitespace. -/
def pyStrip (s : String) : String :=
  String.mk (((s.data.dropWhile isPySpace).reverse.dropWhile isPySpace).reverse)

/-- Model of Python str.lower (ASCII case folding). -/
def pyLower (s : String) : String := String.mk (s.data.map Char.toLower)

/-- Does the first list occur as a leading segment of the second list? -/
def leadsCl : List Char → List Char → Bool
  | [], _ => true
  | _ :: _, [] => false
  | a :: as, b :: bs => a = b && leadsCl as bs

/-- Substring occurrence test on character lists, the model of the Python
`in` operator on strings. -/
def occursIn (w : List Char) : List Char → Bool
  | [] => leadsCl w []
  | c :: rest => leadsCl w (c :: rest) || occursIn w rest

/-- Lexicographic strict comparison of character lists, the model of SQL
string ordering used by ORDER BY on VARCHAR columns. -/
def clLt : List Char → List Char → Bool
  | [], [] => false
  | [], _ :: _ => true
  | _ :: _, [] => false
  | a :: as, b :: bs => if a < b then true else if b < a then false else clLt as bs

/-! ## SHA-256 over natural numbers

Executable model of hashlib.sha256(...).hexdigest() from the Python standard
library, used by log_reasoning_step and replay_session.  Thirty-two bit words
are natural numbers reduced mod 2^32. -/

def w32 : Nat := 4294967296

def add32 (a b : Nat) : Nat := (a + b) % w32

def rotr32 (n x : Nat) : Nat := ((x >>> n) ||| (x <<< (32 - n))) % w32

def xor3 (a b c : Nat) : Nat := (a ^^^ b) ^^^ c

def bigSigma0 (x : Nat) : Nat := xor3 (rotr32 2 x) (rotr32 13 x) (rotr32 22 x)

def bigSigma1 (x : Nat) : Nat := xor3 (rotr32 6 x) (rotr32 11 x) (rotr32 25 x)

def smallSigma0 (x : Nat) : Nat := xor3 (rotr32 7 x) (rotr32 18 x) (x >>> 3)

def smallSigma1 (x : Nat) : Nat := xor3 (rotr32 17 x) (rotr32 19 x) (x >>> 10)

def chWord (x y z : Nat) : Nat := (x &&& y) ^^^ ((x ^^^ (w32 - 1)) &&& z)

def majWord (x y z : Nat) : Nat := ((x &&& y) ^^^ (x &&& z)) ^^^ (y &&& z)

/-- Round constants of SHA-256. -/
def sha256K : List Nat :=
  [1116352408, 1899447441, 3049323471, 3921009573, 961987163, 1508970993,
   2453635748, 2870763221, 3624381080, 310598401, 607225278, 1426881987,
   1925078388, 2162078206, 2614888103, 3248222580, 3835390401, 4022224774,
   264347078, 604807628, 770255983, 1249150122, 1555081692, 1996064986,
   2554220882, 2821834349, 2952996808, 3210313671, 3336571891, 3584528711,
   113926993, 338241895, 666307205, 773529912, 1294757372, 1396182291,
   1695183700, 1986661051, 2177026350, 2456956037, 2730485921, 2820302411,
   3259730800, 3345764771, 3516065817, 3600352804, 4094571909, 275423344,
   430227734, 506948616, 659060556, 883997877, 958139571, 1322822218,
   1537002063, 1747873779, 1955562222, 2024104815, 2227730452, 2361852424,
   2428436474, 2756734187, 3204031479, 3329325298]

/-- Initial hash state of SHA-256. -/
def sha256H0 : List Nat :=
  [1779033703, 3144134277, 1013904242, 2773480762,
   1359893119, 2600822924, 528734635, 1541459225]

def schedGet (l : List Nat) (i : Nat) : Nat := l.getD i 0

/-- Append the next word of the SHA-256 message schedule. -/
def schedStep (l : List Nat) : List Nat :=
  let i := l.length
  l ++ [add32 (add32 (smallSigma1 (schedGet l (i - 2))) (schedGet l (i - 7)))
          (add32 (smallSigma0 (schedGet l (i - 15))) (schedGet l (i - 16)))]

/-- Expand sixteen message words into the sixty-four word schedule. -/
def buildSched (ws : List Nat) : List Nat :=
  (List.range 48).foldl (fun l _ => schedStep l) ws

/-- Working state of the SHA-256 compression loop. -/
structure S8 where
  va : Nat
  vb : Nat
  vc : Nat
  vd : Nat
  ve : Nat
  vf : Nat
  vg : Nat
  vh : Nat

/-- One round of the SHA-256 compression function; kw is K[i] + W[i]. -/
def roundFn (kw : Nat) (s : S8) : S8 :=
  let t1 := add32 s.vh (add32 (bigSigma1 s.ve) (add32 (chWord s.ve s.vf s.vg) kw))
  let t2 := add32 (bigSigma0 s.va) (majWord s.va s.vb s.vc)
  ⟨add32 t1 t2, s.va, s.vb, s.vc, add32 s.vd t1, s.ve, s.vf, s.vg⟩

/-- Compress one 512-bit block (sixteen words) into the running hash. -/
def compressBlock (h : List Nat) (block : List Nat) : List Nat :=
  let kw := List.zipWith add32 sha256K (buildSched block)
  let s0 : S8 := ⟨schedGet h 0, schedGet h 1, schedGet h 2, schedGet h 3,
                  schedGet h 4, schedGet h 5, schedGet h 6, schedGet h 7⟩
  let f := kw.foldl (fun s k => roundFn k s) s0
  [add32 (schedGet h 0) f.va, add32 (schedGet h 1) f.vb,
   add32 (schedGet h 2) f.vc, add32 (schedGet h 3) f.vd,
   add32 (schedGet h 4) f.ve, add32 (schedGet h 5) f.vf,
   add32 (schedGet h 6) f.vg, add32 (schedGet h 7) f.vh]

/-- Big-endian eight-byte encoding of a natural number. -/
def be64 (n : Nat) : List Nat :=
  (List.range 8).map (fun i => (n >>> (8 * (7 - i))) &&& 255)

/-- SHA-256 padding: append 0x80, zero bytes, and the bit length. -/
def sha256Pad (msg : List Nat) : List Nat :=
  let z := (64 - ((msg.length + 9) % 64)) % 64
  msg ++ [0x80] ++ List.replicate z 0 ++ be64 (8 * msg.length)

/-- Read a big-endian 32-bit word at byte offset i. -/
def wordAt (l : List Nat) (i : Nat) : Nat :=
  (((l.getD i 0) <<< 24) + ((l.getD (i + 1) 0) <<< 16)) +
    (((l.getD (i + 2) 0) <<< 8) + l.getD (i + 3) 0)

/-- SHA-256 of a byte sequence, returned as eight 32-bit words. -/
def sha256Words (msg : List Nat) : List Nat :=
  let padded := sha256Pad msg
  let nb := padded.length / 64
  (List.range nb).foldl
    (fun h b => compressBlock h ((List.range 16).map (fun i => wordAt padded (64 * b + 4 * i))))
    sha256H0

/-- UTF-8 encoding of one character, as bytes. -/
def utf8Char (c : Char) : List Nat :=
  let n := c.toNat
  if n < 0x80 then [n]
  else if n < 0x800 then [0xC0 ||| (n >>> 6), 0x80 ||| (n &&& 0x3F)]
  else if n < 0x10000 then
    [0xE0 ||| (n >>> 12), 0x80 ||| ((n >>> 6) &&& 0x3F), 0x80 ||| (n &&& 0x3F)]
  else
    [0xF0 ||| (n >>> 18), 0x80 ||| ((n >>> 12) &&& 0x3F),
     0x80 ||| ((n >>> 6) &&& 0x3F), 0x80 ||| (n &&& 0x3F)]

/-- UTF-8 encoding of a string (model of Python str.encode). -/
def utf8Bytes (s : String) : List Nat := (s.data.map utf8Char).flatten

/-- Lowercase hexadecimal digit. -/
def hexNibble (n : Nat) : Char :=
  if n < 10 then Char.ofNat (48 + n) else Char.ofNat (87 + n)

/-- Lowercase eight-digit hexadecimal rendering of a 32-bit word. -/
def wordHex (w : Nat) : List Char :=
  (List.range 8).map (fun i => hexNibble ((w >>> (4 * (7 - i))) &&& 15))

/-- Model of hashlib.sha256(s.encode()).hexdigest(): the lowercase hex
SHA-256 digest of the UTF-8 encoding of s. -/
def sha256hex (s : String) : String :=
  String.mk (((sha256Words (utf8Bytes s)).map wordHex).flatten)

/-! ## JSON values

Model of the Python json library as used by the engine: json.dumps with its
default options (separators comma-space and colon-space, ensure_ascii) and
json.loads.  Numbers are modelled as integers; the engine itself never
serialises non-integral numbers in the operations under study, and the model
treats a non-integral numeric literal as unparseable. -/

inductive Json where
  | null
  | bool (b : Bool)
  | num (n : Int)
  | str (s : String)
  | arr (xs : List Json)
  | obj (kvs : List (String × Json))

/-- Decimal digit characters. -/
def isDigitCh (c : Char) : Bool := 48 ≤ c.toNat && c.toNat ≤ 57

/-- Digits of a positive natural number, most significant first.  The first
argument is fuel; any fuel at least n yields the digits of n. -/
def printNatAux : Nat → Nat → List Char
  | 0, _ => []
  | fuel + 1, n => if n = 0 then [] else printNatAux fuel (n / 10) ++ [Char.ofNat (48 + n % 10)]

/-- Decimal rendering of a natural number, the model of Python str on int. -/
def printNatCl (n : Nat) : List Char := if n = 0 then ['0'] else printNatAux n n

/-- Decimal rendering of an integer. -/
def printIntCl (n : Int) : List Char :=
  if n < 0 then '-' :: printNatCl n.natAbs else printNatCl n.natAbs

/-- Hexadecimal rendering of n below 65536 as four lowercase digits. -/
def hex4 (n : Nat) : List Char :=
  [hexNibble (n / 4096 % 16), hexNibble (n / 256 % 16), hexNibble (n / 16 % 16), hexNibble (n % 16)]

/-- JSON escape of a single character under json.dumps default options:
two-character escapes for quote, backslash and common control characters,
unicode escapes for other control characters and all non-ASCII characters,
with surrogate pairs above the basic multilingual plane. -/
def escChar (c : Char) : List Char :=
  let n := c.toNat
  if c = '"' then ['\\', '"']
  else if c = '\\' then ['\\', '\\']
  else if n = 8 then ['\\', 'b']
  else if n = 9 then ['\\', 't']
  else if n = 10 then ['\\', 'n']
  else if n = 12 then ['\\', 'f']
  else if n = 13 then ['\\', 'r']
  else if n < 0x20 then '\\' :: 'u' :: hex4 n
  else if n < 0x7F then [c]
  else if n < 0x10000 then '\\' :: 'u' :: hex4 n
  else
    let m := n - 0x10000
    ('\\' :: 'u' :: hex4 (0xD800 + m / 1024)) ++ ('\\' :: 'u' :: hex4 (0xDC00 + m % 1024))

/-- JSON escape of a character sequence. -/
def escCl (l : List Char) : List Char := (l.map escChar).flatten

/-- Quoted JSON string literal for a character sequence. -/
def quoteCl (l : List Char) : List Char := '"' :: escCl l ++ ['"']

mutual

/-- Model of json.dumps with default options, producing a character list. -/
def dumpCl : Json → List Char
  | .null => "null".data
  | .bool true => "true".data
  | .bool false => "false".data
  | .num n => printIntCl n
  | .str s => quoteCl s.data
  | .arr xs => '[' :: dumpElems xs ++ [']']
  | .obj kvs => '\x7b' :: dumpMembers kvs ++ ['\x7d']

/-- Comma-space separated renderings of array elements. -/
def dumpElems : List Json → List Char
  | [] => []
  | [x] => dumpCl x
  | x :: y :: r => dumpCl x ++ ',' :: ' ' :: dumpElems (y :: r)

/-- Comma-space separated renderings of object members. -/
def dumpMembers : List (String × Json) → List Char
  | [] => []
  | [kv] => quoteCl kv.1.data ++ ':' :: ' ' :: dumpCl kv.2
  | kv :: kv2 :: r => (quoteCl kv.1.data ++ ':' :: ' ' :: dumpCl kv.2) ++ ',' :: ' ' :: dumpMembers (kv2 :: r)

end

/-- Model of json.dumps returning a string. -/
def dumpJson (v : Json) : String := String.mk (dumpCl v)

/-- JSON whitespace accepted between tokens by json.loads. -/
def isJsonWs (c : Char) : Bool := c = ' ' || c = '\t' || c = '\n' || c = '\r'

/-- Drop leading JSON whitespace. -/
def skipWs : List Char → List Char
  | [] => []
  | c :: rest => if isJsonWs c then skipWs rest else c :: rest

/-- Value of one hexadecimal digit character. -/
def hexVal (c : Char) : Option Nat :=
  let n := c.toNat
  if 48 ≤ n && n ≤ 57 then some (n - 48)
  else if 97 ≤ n && n ≤ 102 then some (n - 87)
  else if 65 ≤ n && n ≤ 70 then some (n - 55)
  else none

/-- Scanner state while reading a JSON string body: plain characters, after
a backslash, inside a four-digit unicode escape (optionally continuing a
surrogate pair), or between the halves of a surrogate pair. -/
inductive StrSt where
  | norm
  | esc
  | hex (pend : Option Nat) (acc : Nat) (k : Nat)
  | pairSlash (hi : Nat)
  | pairU (hi : Nat)

/-- Read a JSON string body up to the closing quote, unescaping as Python
json.loads does; acc holds already-read characters in reverse. -/
def strBody : StrSt → List Char → List Char → Option (List Char × List Char)
  | _, _, [] => none
  | .norm, acc, c :: rest =>
    if c = '"' then some (acc.reverse, rest)
    else if c = '\\' then strBody .esc acc rest
    else strBody .norm (c :: acc) rest
  | .esc, acc, c :: rest =>
    if c = '"' then strBody .norm ('"' :: acc) rest
    else if c = '\\' then strBody .norm ('\\' :: acc) rest
    else if c = '/' then strBody .norm ('/' :: acc) rest
    else if c = 'b' then strBody .norm (Char.ofNat 8 :: acc) rest
    else if c = 'f' then strBody .norm (Char.ofNat 12 :: acc) rest
    else if c = 'n' then strBody .norm ('\n' :: acc) rest
    else if c = 'r' then strBody .norm ('\r' :: acc) rest
    else if c = 't' then strBody .norm ('\t' :: acc) rest
    else if c = 'u' then strBody (.hex none 0 4) acc rest
    else none
  | .hex pend a k, acc, c :: rest =>
    match hexVal c with
    | none => none
    | some d =>
      let a2 := 16 * a + d
      if k = 1 then
        match pend with
        | none =>
          if 0xD800 ≤ a2 ∧ a2 < 0xDC00 then strBody (.pairSlash a2) acc rest
          else if 0xDC00 ≤ a2 ∧ a2 < 0xE000 then none
          else strBody .norm (Char.ofNat a2 :: acc) rest
        | some hi =>
          if 0xDC00 ≤ a2 ∧ a2 < 0xE000 then
            strBody .norm (Char.ofNat (0x10000 + 1024 * (hi - 0xD800) + (a2 - 0xDC00)) :: acc) rest
          else none
      else strBody (.hex pend a2 (k - 1)) acc rest
  | .pairSlash hi, acc, c :: rest => if c = '\\' then strBody (.pairU hi) acc rest else none
  | .pairU hi, acc, c :: rest => if c = 'u' then strBody (.hex (some hi) 0 4) acc rest else none

/-- Longest leading run of decimal digits, and the remainder. -/
def spanDigits : List Char → List Char × List Char
  | [] => ([], [])
  | c :: rest =>
    if isDigitCh c then
      let p := spanDigits rest
      (c :: p.1, p.2)
    else ([], c :: rest)

/-- Numeric value of a digit sequence. -/
def digitsVal (l : List Char) : Nat := l.foldl (fun a c => 10 * a + (c.toNat - 48)) 0

/-- Read an unsigned integer literal.  A following dot or exponent marks a
non-integral number, which this model does not represent. -/
def parseNumCl (l : List Char) : Option (Nat × List Char) :=
  let p := spanDigits l
  if p.1 = [] then none
  else
    match p.2 with
    | c :: _ => if c = '.' || c = 'e' || c = 'E' then none else some (digitsVal p.1, p.2)
    | [] => some (digitsVal p.1, [])

mutual

/-- Recursive-descent JSON value reader; fuel bounds the nesting performed
and any fuel at least the nesting weight of the value suffices. -/
def parseValue : Nat → List Char → Option (Json × List Char)
  | 0, _ => none
  | fuel + 1, l =>
    match skipWs l with
    | [] => none
    | c :: rest =>
      if c = 'n' then
        if leadsCl ['u', 'l', 'l'] rest then some (.null, rest.drop 3) else none
      else if c = 't' then
        if leadsCl ['r', 'u', 'e'] rest then some (.bool true, rest.drop 3) else none
      else if c = 'f' then
        if leadsCl ['a', 'l', 's', 'e'] rest then some (.bool false, rest.drop 4) else none
      else if c = '"' then
        (strBody .norm [] rest).map (fun p => (.str (String.mk p.1), p.2))
      else if c = '[' then
        let l2 := skipWs rest
        if l2.head? = some ']' then some (.arr [], l2.tail)
        else (parseElems fuel l2).map (fun p => (.arr p.1, p.2))
      else if c = '\x7b' then
        let l2 := skipWs rest
        if l2.head? = some '\x7d' then some (.obj [], l2.tail)
        else (parseMembers fuel l2).map (fun p => (.obj p.1, p.2))
      else if c = '-' then
        (parseNumCl rest).map (fun p => (.num (-(p.1 : Int)), p.2))
      else if isDigitCh c then
        (parseNumCl (c :: rest)).map (fun p => (.num (p.1 : Int), p.2))
      else none

/-- Read one or more comma-separated array elements and the closing bracket. -/
def parseElems : Nat → List Char → Option (List Json × List Char)
  | 0, _ => none
  | fuel + 1, l =>
    match parseValue fuel l with
    | none => none
    | some (v, r) =>
      let r1 := skipWs r
      if r1.head? = some ',' then (parseElems fuel r1.tail).map (fun p => (v :: p.1, p.2))
      else if r1.head? = some ']' then some ([v], r1.tail)
      else none

/-- Read one or more object members and the closing brace. -/
def parseMembers : Nat → List Char → Option (List (String × Json) × List Char)
  | 0, _ => none
  | fuel + 1, l =>
    match skipWs l with
    | '"' :: r =>
      match strBody .norm [] r with
      | none => none
      | some (kcl, r2) =>
        let r3 := skipWs r2
        if r3.head? = some ':' then
          match parseValue fuel r3.tail with
          | none => none
          | some (v, r4) =>
            let r5 := skipWs r4
            if r5.head? = some ',' then
              (parseMembers fuel r5.tail).map (fun p => ((String.mk kcl, v) :: p.1, p.2))
            else if r5.head? = some '\x7d' then some ([(String.mk kcl, v)], r5.tail)
            else none
        else none
    | _ => none

end

/-- Model of json.loads: parse a complete JSON document, requiring the whole
input to be consumed up to trailing whitespace. -/
def parseTop (s : String) : Option Json :=
  match parseValue (s.data.length + 1) s.data with
  | some (v, rest) => if skipWs rest = [] then some v else none
  | none => none

/-! ## Rational rounding

Model of Python round(x, 4) on the exact rational value of the score:
round half to even, four decimal places. -/

/-- Round half to even to an integer. -/
def rhe (q : Rat) : Int :=
  let f := ⌊q⌋
  let r := q - f
  if r < 1 / 2 then f else if 1 / 2 < r then f + 1 else if f % 2 = 0 then f else f + 1

/-- Model of Python round(x, 4). -/
def round4 (q : Rat) : Rat := (rhe (q * 10000) : Rat) / 10000

/-! ## Engine data model

Each internal table of local_engine.py is a list of typed rows; insertion
appends at the end.  Timestamp columns that no modelled operation reads
(created_at and updated_at defaults on state and trigger rows) are omitted;
ensure_memory_schema, ensure_cot_schema and ensure_trigger_schema are
idempotent DDL and are the identity on this model.  DOUBLE columns are
modelled as rationals. -/

/-- Row of agent_traces in the chain-of-thought schema. -/
structure Trace where
  trace_id : String
  session_id : String
  agent_id : String
  step_number : Nat
  step_type : String
  content : String
  importance : Rat
  metadata : Option String
  prev_hash : String
  hash : String
deriving DecidableEq

/-- Row of agent_state in the memory schema. -/
structure StateRow where
  agent_id : String
  key : String
  value : String
  version : Nat
deriving DecidableEq

/-- Row of agent_memories in the memory schema (columns the modelled
operations read). -/
structure MemoryRow where
  memory_id : String
  agent_id : String
  content : String
  memory_type : String
  importance : Rat
  metadata : Option String
  created_at : String
deriving DecidableEq

/-- Row of trigger_registry in the trigger schema (columns the modelled
operations read). -/
structure TriggerRow where
  trigger_id : String
  name : String
  concept : String
  threshold : Rat
  action_type : String
  action_config : String
  enabled : Bool
deriving DecidableEq

/-- Catalog entry for a table or view in a named schema; payload stands for
the row contents, which the branch operations copy around opaquely. -/
structure TableEntry where
  table_schema : String
  table_name : String
  isBase : Bool
  payload : List String
deriving DecidableEq

/-- Whole-database state of the embedded engine. -/
structure EngineState where
  traces : List Trace
  agentState : List StateRow
  memories : List MemoryRow
  triggers : List TriggerRow
  schemata : List String
  tables : List TableEntry
deriving DecidableEq

/-- Freshly created database: no rows, no branch schemas. -/
def emptyEngine : EngineState := ⟨[], [], [], [], [], []⟩

/-- Insertion of x into a list sorted by the given may-precede test. -/
def insBy {α : Type} (le : α → α → Bool) (x : α) : List α → List α
  | [] => [x]
  | y :: ys => if le x y then x :: y :: ys else y :: insBy le x ys

/-- Insertion sort by the given may-precede test, the model of ORDER BY. -/
def sortBy {α : Type} (le : α → α → Bool) : List α → List α
  | [] => []
  | x :: xs => insBy le x (sortBy le xs)

/-! ## Memory store operations (local_engine.py) -/

/-- Token extraction of search_memory: split the query on whitespace, strip
each token, and keep those longer than two characters. -/
def searchWords (query_text : String) : List String :=
  ((pySplit query_text).map pyStrip).filter (fun w => w.length > 2)

/-- Model of content ILIKE the token wrapped in percent signs:
case-insensitive containment of the token text. -/
def ilikeMatch (w : String) (content : String) : Bool :=
  occursIn (pyLower w).data (pyLower content).data

/-- Row predicate assembled by search_memory: agent equality, the ILIKE
disjunction when any token survived, optional memory_type equality (skipped
for an empty string, as Python truthiness does), and the optional
importance lower bound. -/
def memMatches (agent_id : String) (words : List String) (memory_type : Option String)
    (min_importance : Option Rat) (m : MemoryRow) : Bool :=
  m.agent_id == agent_id
    && (words.isEmpty || words.any (fun w => ilikeMatch w m.content))
    && (match memory_type with
        | some t => if t = "" then true else m.memory_type == t
        | none => true)
    && (match min_importance with
        | some q => decide (q ≤ m.importance)
        | none => true)

/-- ORDER BY importance DESC, created_at DESC as a may-precede test. -/
def memBefore (x y : MemoryRow) : Bool :=
  if x.importance = y.importance then !(clLt x.created_at.data y.created_at.data)
  else decide (y.importance < x.importance)

/-- Model of LocalDuckDBEngine.search_memory. -/
def search_memory (s : EngineState) (agent_id query_text : String) (top_k : Nat)
    (memory_type : Option String) (min_importance : Option Rat) : List MemoryRow :=
  let words := searchWords query_text
  List.take top_k
    (sortBy memBefore (s.memories.filter (memMatches agent_id words memory_type min_importance)))

/-- Model of LocalDuckDBEngine.get_state: look the key up and JSON-decode
the stored value, falling back to the raw string when decoding fails. -/
def get_state (s : EngineState) (agent_id key : String) : Option (Json ⊕ String) :=
  match s.agentState.find? (fun r => r.agent_id == agent_id && r.key == key) with
  | some r =>
    match parseTop r.value with
    | some j => some (.inl j)
    | none => some (.inr r.value)
  | none => none

/-- Model of LocalDuckDBEngine.set_state: JSON-encode the value and upsert,
inserting with version 1 or bumping the stored version on conflict. -/
def set_state (s : EngineState) (agent_id key : String) (value : Json) : EngineState :=
  let json_val := dumpJson value
  if s.agentState.any (fun r => r.agent_id == agent_id && r.key == key) then
    { s with agentState := s.agentState.map (fun r =>
        if r.agent_id == agent_id && r.key == key then
          { r with value := json_val, version := r.version + 1 }
        else r) }
  else
    { s with agentState := s.agentState ++ [⟨agent_id, key, json_val, 1⟩] }

/-- Stored version for a state key, if present. -/
def stateVersion (s : EngineState) (agent_id key : String) : Option Nat :=
  (s.agentState.find? (fun r => r.agent_id == agent_id && r.key == key)).map (fun r => r.version)

/-! ## Chain-of-thought operations (local_engine.py) -/

/-- Traces of one session in insertion order, the rows satisfying the
WHERE session_id filter. -/
def sessionTraces (s : EngineState) (session_id : String) : List Trace :=
  s.traces.filter (fun t => t.session_id == session_id)

/-- Model of ORDER BY step_number DESC LIMIT 1: a row of maximal
step_number (the later row on ties, which the engine never creates). -/
def lastBySt : List Trace → Option Trace
  | [] => none
  | t :: ts =>
    match lastBySt ts with
    | none => some t
    | some m => if m.step_number ≥ t.step_number then some m else some t

/-- Arguments of one log_reasoning_step call; trace_id stands for the
generated UUID and metadata for the serialised metadata argument. -/
structure LogCall where
  trace_id : String
  agent_id : String
  session_id : String
  step_type : String
  content : String
  metadata : Option String
  importance : Rat
deriving DecidableEq

/-- Model of LocalDuckDBEngine.log_reasoning_step: read the predecessor row
of the session, derive prev_hash and step_number, hash the concatenation,
and insert the new trace.  The returned trace_id is c.trace_id. -/
def log_reasoning_step (s : EngineState) (c : LogCall) : EngineState :=
  let rows := lastBySt (sessionTraces s c.session_id)
  let prev_hash := match rows with | some r => r.hash | none => ""
  let step_number := match rows with | some r => r.step_number + 1 | none => 0
  let new_hash := sha256hex (prev_hash ++ c.session_id ++ c.step_type ++ c.content)
  { s with traces := s.traces ++
      [⟨c.trace_id, c.session_id, c.agent_id, step_number, c.step_type, c.content,
        c.importance, c.metadata, prev_hash, new_hash⟩] }

/-- Result shape of replay_session. -/
structure ReplayResult where
  session_id : String
  steps : List Trace
  step_count : Nat
  chain_valid : Option Bool
deriving DecidableEq

/-- The verification loop of replay_session: walk the rows carrying the
hash of the previous row, failing on a linkage or recomputation mismatch. -/
def verifyChain : String → List Trace → Bool
  | _, [] => true
  | prev, r :: rest =>
    if r.prev_hash ≠ prev then false
    else if r.hash ≠ sha256hex (r.prev_hash ++ r.session_id ++ r.step_type ++ r.content) then false
    else verifyChain r.hash rest

/-- ORDER BY step_number ASC as a may-precede test. -/
def stepLe (x y : Trace) : Bool := x.step_number ≤ y.step_number

/-- Model of LocalDuckDBEngine.replay_session: rows of the session in
step_number order; chain_valid stays None unless verification was requested
and at least one row exists. -/
def replay_session (s : EngineState) (session_id : String) (verify_chain : Bool) : ReplayResult :=
  let rows := sortBy stepLe (sessionTraces s session_id)
  let chain_valid : Option Bool :=
    if verify_chain && !rows.isEmpty then some (verifyChain "" rows) else none
  ⟨session_id, rows, rows.length, chain_valid⟩

/-! ## Trigger operations (local_engine.py) -/

/-- Return shape of test_trigger: notFound stands for the dict with matched
false and error "Trigger not found"; found carries the matched flag, the
rounded score, the configured threshold, the trigger name and concept. -/
inductive TestTriggerResult where
  | notFound
  | found (matched : Bool) (score : Rat) (threshold : Rat) (trigger_name : String) (concept : String)
deriving DecidableEq

/-- Model of LocalDuckDBEngine.test_trigger. -/
def test_trigger (s : EngineState) (trigger_id : String) (content : String) : TestTriggerResult :=
  match s.triggers.filter (fun t => t.trigger_id == trigger_id) with
  | [] => .notFound
  | trigger :: _ =>
    let concept := pyLower trigger.concept
    let content_lower := pyLower content
    let concept_words := (pySplit concept).filter (fun w => w.length > 2)
    let matched_words := concept_words.filter (fun w => occursIn w.data content_lower.data)
    let score : Rat := (matched_words.length : Rat) / ((max concept_words.length 1 : Nat) : Rat)
    .found (decide (trigger.threshold ≤ score)) (round4 score) trigger.threshold
      trigger.name trigger.concept

/-- Model of LocalDuckDBEngine.delete_trigger: soft delete, reporting
whether a matching row existed. -/
def delete_trigger (s : EngineState) (trigger_id : String) : EngineState × Bool :=
  match s.triggers.filter (fun t => t.trigger_id == trigger_id) with
  | [] => (s, false)
  | _ :: _ =>
    ({ s with triggers := s.triggers.map (fun t =>
        if t.trigger_id == trigger_id then { t with enabled := false } else t) }, true)

/-! ## Branch operations (local_engine.py)

Branch existence is the presence of the schema name in the catalog.  The
substrate result of running user SQL inside an existing branch is abstracted
as a function runSql from the SQL text to rows. -/

/-- Catalog lookup modelling the information_schema.schemata query. -/
def schemaExists (s : EngineState) (schema_name : String) : Bool :=
  s.schemata.any (fun n => n == schema_name)

/-- Model of LocalDuckDBEngine.branch_query: an error row for a missing
branch, otherwise the substrate result under the branch search path. -/
def branch_query (runSql : String → List Json) (s : EngineState) (branch_id : String)
    (sql : String) : List Json :=
  let schema_name := "branch_" ++ branch_id
  if schemaExists s schema_name then runSql sql
  else [Json.obj [("error", Json.str ("Branch " ++ branch_id ++ " not found"))]]

/-- Model of LocalDuckDBEngine.branch_merge: an error dict for a missing
branch; otherwise replace main tables by the materialised branch tables
under branch_wins, drop the branch schema, and report the count. -/
def branch_merge (s : EngineState) (branch_id : String) (strategy : String) :
    EngineState × Json :=
  let schema_name := "branch_" ++ branch_id
  if schemaExists s schema_name then
    let tables := s.tables.filter (fun t => t.table_schema == schema_name && t.isBase)
    let s2 :=
      if strategy == "branch_wins" then
        tables.foldl (fun st t =>
          { st with tables :=
              (st.tables.filter (fun u => !(u.table_schema == "main" && u.table_name == t.table_name)))
                ++ [⟨"main", t.table_name, true, t.payload⟩] }) s
      else s
    let merged : Nat := if strategy == "branch_wins" then tables.length else 0
    let s3 := { s2 with
      schemata := s2.schemata.filter (fun n => n ≠ schema_name),
      tables := s2.tables.filter (fun u => u.table_schema ≠ schema_name) }
    (s3, Json.obj [("branch_id", Json.str branch_id), ("strategy", Json.str strategy),
      ("merged", Json.num merged), ("status", Json.str "completed")])
  else
    (s, Json.obj [("error", Json.str ("Branch " ++ branch_id ++ " not found")),
      ("merged", Json.num 0)])

/-- Model of LocalDuckDBEngine.branch_discard: drop the branch schema with
its tables, reporting whether it existed. -/
def branch_discard (s : EngineState) (branch_id : String) : EngineState × Bool :=
  let schema_name := "branch_" ++ branch_id
  if schemaExists s schema_name then
    ({ s with
        schemata := s.schemata.filter (fun n => n ≠ schema_name),
        tables := s.tables.filter (fun u => u.table_schema ≠ schema_name) }, true)
  else (s, false)

/-! ## Tool dispatcher (mcp_server.py)

Handlers return the MCP content envelope: okEnv wraps a data payload (the
dict passed to json.dumps inside the content text), errEnv additionally
sets isError.  The handlers modelled here are the ones the claims under
study exercise, each in its local and, where it differs, remote form. -/

/-- MCP content envelope: the payload later serialised into content text,
and the isError flag (absent on the ok path). -/
structure Envelope where
  payload : Json
  isErrorFlag : Bool

/-- Model of the _ok helper of mcp_server.py. -/
def okEnv (data : Json) : Envelope := ⟨data, false⟩

/-- Model of the _err helper of mcp_server.py. -/
def errEnv (msg : String) : Envelope := ⟨Json.str msg, true⟩

/-- Model of handle_tool_call for tool delete_trigger: the local branch
calls the engine helper; the remote branch issues the soft-delete UPDATE
and reports deleted unconditionally true. -/
def handle_delete_trigger (s : EngineState) (trigger_id : String) (is_local : Bool) :
    EngineState × Envelope :=
  if is_local then
    let p := delete_trigger s trigger_id
    (p.1, okEnv (Json.obj [("deleted", Json.bool p.2), ("trigger_id", Json.str trigger_id)]))
  else
    let s2 := { s with triggers := s.triggers.map (fun t =>
        if t.trigger_id == trigger_id then { t with enabled := false } else t) }
    (s2, okEnv (Json.obj [("deleted", Json.bool true), ("trigger_id", Json.str trigger_id)]))

/-- Model of handle_tool_call for tool branch_discard: the local branch
calls the engine helper; the remote branch issues DROP SCHEMA IF EXISTS
and reports discarded unconditionally true. -/
def handle_branch_discard (s : EngineState) (branch_id : String) (is_local : Bool) :
    EngineState × Envelope :=
  if is_local then
    let p := branch_discard s branch_id
    (p.1, okEnv (Json.obj [("discarded", Json.bool p.2), ("branch_id", Json.str branch_id)]))
  else
    let schema_name := "branch_" ++ branch_id
    let s2 := { s with
      schemata := s.schemata.filter (fun n => n ≠ schema_name),
      tables := s.tables.filter (fun u => u.table_schema ≠ schema_name) }
    (s2, okEnv (Json.obj [("discarded", Json.bool true), ("branch_id", Json.str branch_id)]))

/-- Model of handle_tool_call for tool branch_query in local mode: the
engine result list is wrapped by _ok. -/
def handle_branch_query (runSql : String → List Json) (s : EngineState)
    (branch_id sql : String) : EngineState × Envelope :=
  (s, okEnv (Json.arr (branch_query runSql s branch_id sql)))

/-- Model of handle_tool_call for tool branch_merge in local mode. -/
def handle_branch_merge (s : EngineState) (branch_id strategy : String) :
    EngineState × Envelope :=
  let p := branch_merge s branch_id strategy
  (p.1, okEnv p.2)

/-! ## Stdio JSON-RPC loop (mcp_server.py)

The loop is parametric in the model of json.loads, in the tool catalog that
create_tools returns, and in handle_tool_call (a state transformer returning
the result dict), mirroring how run_stdio_server composes with its
collaborators. -/

/-- Model of dict.get with a default on a parsed JSON object (the last
binding of a key wins, as in a Python dict built by json.loads). -/
def jGet (kvs : List (String × Json)) (k : String) (dflt : Json) : Json :=
  kvs.foldl (fun acc kv => if kv.1 == k then kv.2 else acc) dflt

/-- Python equality of a parsed JSON value with a string literal: true only
for the equal string. -/
def isStrEq (j : Json) (s : String) : Bool :=
  match j with
  | .str t => t == s
  | _ => false

/-- Rendering of a parsed JSON value inside a Python f-string: strings
verbatim, None and booleans in Python spelling, numbers in decimal
(container rendering approximated by the JSON form). -/
def pyShow : Json → String
  | .str s => s
  | .null => "None"
  | .bool true => "True"
  | .bool false => "False"
  | .num n => String.mk (printIntCl n)
  | v => dumpJson v

/-- The serverInfo dict of run_stdio_server. -/
def serverInfoJson : Json :=
  Json.obj [("name", .str "hatidata"), ("version", .str "0.2.0"),
    ("capabilities", .obj [("tools", .obj [])])]

/-- The initialize result of run_stdio_server. -/
def initResultJson : Json :=
  Json.obj [("protocolVersion", .str "2024-11-05"), ("serverInfo", serverInfoJson),
    ("capabilities", .obj [("tools", .obj [])])]

/-- A JSON-RPC response frame with a result. -/
def rpcResult (reqId body : Json) : Json :=
  Json.obj [("jsonrpc", .str "2.0"), ("id", reqId), ("result", body)]

/-- Model of run_stdio_server: fold over stdin lines, skipping blank and
unparseable lines, answering initialize, tools/list and tools/call,
staying silent on notifications/initialized, and replying with a protocol
error for unknown methods.  A line whose JSON is not an object (or a
tools/call whose params is not an object) raises AttributeError in the
Python loop, which the loop does not catch: the model stops there,
emitting nothing further. -/
def runStdio {σ : Type} (loads : String → Option Json) (tools : Json)
    (toolCall : σ → Json → Json → σ × Json) : σ → List String → σ × List Json
  | st, [] => (st, [])
  | st, line :: rest =>
    let l := pyStrip line
    if l = "" then runStdio loads tools toolCall st rest
    else
      match loads l with
      | none => runStdio loads tools toolCall st rest
      | some (.obj kvs) =>
        let method := jGet kvs "method" (Json.str "")
        let reqId := jGet kvs "id" Json.null
        if isStrEq method "initialize" then
          let p := runStdio loads tools toolCall st rest
          (p.1, rpcResult reqId initResultJson :: p.2)
        else if isStrEq method "tools/list" then
          let p := runStdio loads tools toolCall st rest
          (p.1, rpcResult reqId (Json.obj [("tools", tools)]) :: p.2)
        else if isStrEq method "tools/call" then
          match jGet kvs "params" (Json.obj []) with
          | .obj pkvs =>
            let name := jGet pkvs "name" (Json.str "")
            let args := jGet pkvs "arguments" (Json.obj [])
            let q := toolCall st name args
            let p := runStdio loads tools toolCall q.1 rest
            (p.1, rpcResult reqId q.2 :: p.2)
          | _ => (st, [])
        else if isStrEq method "notifications/initialized" then
          runStdio loads tools toolCall st rest
        else
          let resp := Json.obj [("jsonrpc", .str "2.0"), ("id", reqId),
            ("error", .obj [("code", .num (-32601)),
              ("message", .str ("Method not found: " ++ pyShow method))])]
          let p := runStdio loads tools toolCall st rest
          (p.1, resp :: p.2)
      | some _ => (st, [])

/-! ## Derived forms used to state the claims -/

/-- Sequential application of log_reasoning_step calls. -/
def applyLogs (s : EngineState) (calls : List LogCall) : EngineState :=
  calls.foldl log_reasoning_step s

/-- The calls of a sequence addressed to one session. -/
def callsFor (session_id : String) (calls : List LogCall) : List LogCall :=
  calls.filter (fun c => c.session_id == session_id)

/-- Reference chain for a session: the trace list that a run of
log_reasoning_step calls should store, built by the hash-chain recurrence
of the specification. -/
def mkChain (sid : String) : Nat → String → List LogCall → List Trace
  | _, _, [] => []
  | n, ph, c :: cs =>
    let h := sha256hex (ph ++ sid ++ c.step_type ++ c.content)
    ⟨c.trace_id, sid, c.agent_id, n, c.step_type, c.content, c.importance, c.metadata, ph, h⟩
      :: mkChain sid (n + 1) h cs

/-- The per-step checks of the specification for a row list: each row links
to the hash of its predecessor (empty for the first) and its hash equals
the SHA-256 of prev_hash, its session_id, step_type and content. -/
def chainChecksFrom (prev : String) : List Trace → Prop
  | [] => True
  | r :: rest =>
    r.prev_hash = prev ∧
      r.hash = sha256hex (r.prev_hash ++ r.session_id ++ r.step_type ++ r.content) ∧
      chainChecksFrom r.hash rest

/-- Strictly ascending step numbers along a trace list. -/
def stepsAscend : List Trace → Prop
  | [] => True
  | [_] => True
  | a :: b :: r => a.step_number < b.step_number ∧ stepsAscend (b :: r)

/-- Claim-language token set W of a trigger concept: whitespace tokens of
the lowercased concept longer than two characters. -/
def conceptTokens (concept : String) : List String :=
  (pySplit (pyLower concept)).filter (fun w => w.length > 2)

/-- Claim-language matched set M: the concept tokens occurring as
substrings of the lowercased content. -/
def matchedTokens (concept content : String) : List String :=
  (conceptTokens concept).filter (fun w => occursIn w.data (pyLower content).data)

/-- Claim-language score of test_trigger before rounding. -/
def triggerScore (concept content : String) : Rat :=
  ((matchedTokens concept content).length : Rat) /
    (((max (conceptTokens concept).length 1 : Nat)) : Rat)

/-- Stored traces of a session after a run of log_reasoning_step calls,
in step_number order as replay_session returns them. -/
def storedSession (s0 : EngineState) (calls : List LogCall) (sid : String) : List Trace :=
  sortBy stepLe (sessionTraces (applyLogs s0 calls) sid)

/-- Hash at the end of a reference chain. -/
def chainEndHash (sid : String) : String → List LogCall → String
  | ph, [] => ph
  | ph, c :: cs => chainEndHash sid (sha256hex (ph ++ sid ++ c.step_type ++ c.content)) cs

/-! ## Measures and side predicates for the parser proofs -/

mutual

/-- Fuel weight of a JSON value: enough parser fuel for its nesting. -/
def jweight : Json → Nat
  | .arr [] => 1
  | .arr (x :: r) => 1 + jweightElems (x :: r)
  | .obj [] => 1
  | .obj (kv :: r) => 1 + jweightMembers (kv :: r)
  | _ => 1

/-- Fuel weight of a nonempty array tail. -/
def jweightElems : List Json → Nat
  | [] => 0
  | x :: r => 1 + jweight x + jweightElems r

/-- Fuel weight of a nonempty member list. -/
def jweightMembers : List (String × Json) → Nat
  | [] => 0
  | kv :: r => 1 + jweight kv.2 + jweightMembers r

end

/-- The continuation after a rendered number may not begin with a digit,
a decimal point or an exponent marker. -/
def numStop : List Char → Prop
  | [] => True
  | c :: _ => isDigitCh c = false ∧ c ≠ '.' ∧ c ≠ 'e' ∧ c ≠ 'E'

/-- First character of a rendered JSON value: never whitespace nor one of
the closing or separating characters. -/
def goodHead : List Char → Prop
  | [] => False
  | c :: _ => isJsonWs c = false ∧ c ≠ ']' ∧ c ≠ Char.ofNat 125 ∧ c ≠ ','

/-! ## Concrete fixtures for witnesses and counterexamples -/

/-- A registered trigger whose concept has no token longer than two
characters. -/
def trigShort : TriggerRow :=
  ⟨"t1", "short", "ab", 7 / 10, "flag_for_review", "\x7b\x7d", true⟩

/-- Engine state holding only trigShort. -/
def stShort : EngineState := ⟨[], [], [], [trigShort], [], []⟩

/-- Two example memories of one agent. -/
def memA : MemoryRow := ⟨"m1", "a1", "User prefers dark mode", "preference", 8 / 10, none, "2024-01-02T00:00:00Z"⟩

def memB : MemoryRow := ⟨"m2", "a1", "likes tea", "fact", 5 / 10, none, "2024-01-01T00:00:00Z"⟩

/-- Engine state holding the two example memories. -/
def stMem : EngineState := ⟨[], [], [memA, memB], [], [], []⟩

/-- Two example reasoning-step calls into session S. -/
def callA : LogCall := ⟨"id1", "a1", "S", "observation", "hello", none, 5 / 10⟩

def callB : LogCall := ⟨"id2", "a1", "S", "decision", "act", none, 5 / 10⟩

/-! ## Lemmas and claim theorems -/

theorem any_eq_after_remove (l : List String) (x : String) :
    (l.filter (fun n => n ≠ x)).any (fun n => n == x) = false := by
  rw [List.any_eq_false]
  intro n hn
  rcases List.mem_filter.mp hn with ⟨_, hne⟩
  simp only [ne_eq, decide_not, Bool.not_eq_eq_eq_not, Bool.not_true, decide_eq_false_iff_not] at hne
  simp [hne]

/-- C9: for a session with zero stored traces, replay_session with
verify_chain true returns the empty step list, step_count 0 and
chain_valid None — verification is skipped entirely, so chain_valid is
None rather than a boolean even though verification was requested. -/
theorem c9_empty_replay (s : EngineState) (sid : String)
    (h : sessionTraces s sid = []) :
    replay_session s sid true = ⟨sid, [], 0, none⟩ := by
  simp [replay_session, h, sortBy]

theorem c9_empty_replay_witness :
    sessionTraces emptyEngine "S" = [] ∧ replay_session emptyEngine "S" true = ⟨"S", [], 0, none⟩ :=
  ⟨rfl, c9_empty_replay emptyEngine "S" rfl⟩

/-- C3: the local and remote backends are distinguishable through the tool
envelope.  Over the same (empty) database state, delete_trigger of a
nonexistent trigger_id reports deleted false locally but deleted true
remotely, and branch_discard of a nonexistent branch_id reports discarded
false locally but discarded true remotely, contradicting the requirement
that the two backends be semantically indistinguishable for every tool. -/
theorem c3_backend_divergence :
    (handle_delete_trigger emptyEngine "t1" true).2.payload
        = Json.obj [("deleted", Json.bool false), ("trigger_id", Json.str "t1")]
    ∧ (handle_delete_trigger emptyEngine "t1" false).2.payload
        = Json.obj [("deleted", Json.bool true), ("trigger_id", Json.str "t1")]
    ∧ (handle_branch_discard emptyEngine "b1" true).2.payload
        = Json.obj [("discarded", Json.bool false), ("branch_id", Json.str "b1")]
    ∧ (handle_branch_discard emptyEngine "b1" false).2.payload
        = Json.obj [("discarded", Json.bool true), ("branch_id", Json.str "b1")] :=
  ⟨rfl, rfl, rfl, rfl⟩

/-- C4 counterexample: dispatching branch_query of a nonexistent branch
yields an envelope whose isError flag is not set — the not-found outcome is
an ordinary (ok) result carrying an error payload, not a tool error as the
claim states. -/
theorem c4_not_a_tool_error :
    (handle_branch_query (fun _ => []) emptyEngine "b1" "SELECT 1").2.isErrorFlag = false
    ∧ (handle_branch_query (fun _ => []) emptyEngine "b1" "SELECT 1").2.payload
        = Json.arr [Json.obj [("error", Json.str "Branch b1 not found")]] :=
  ⟨rfl, rfl⟩

/-- C4 (amended): branch_query and branch_merge of a branch whose schema
does not exist return the branch-not-found error payload inside a
successful (non-isError) envelope rather than ordinary rows; and after
branch_discard returns true, a subsequent branch_query of the same branch
reports branch-not-found. -/
theorem c4_branch_not_found (runSql : String → List Json) (s : EngineState)
    (branch_id sql strategy : String)
    (h : schemaExists s ("branch_" ++ branch_id) = false) :
    branch_query runSql s branch_id sql
        = [Json.obj [("error", Json.str ("Branch " ++ branch_id ++ " not found"))]]
    ∧ (branch_merge s branch_id strategy).2
        = Json.obj [("error", Json.str ("Branch " ++ branch_id ++ " not found")),
            ("merged", Json.num 0)]
    ∧ (handle_branch_query runSql s branch_id sql).2.isErrorFlag = false
    ∧ (handle_branch_merge s branch_id strategy).2.isErrorFlag = false
    ∧ ∀ (s0 : EngineState) (id2 sql2 : String), (branch_discard s0 id2).2 = true →
        branch_query runSql (branch_discard s0 id2).1 id2 sql2
          = [Json.obj [("error", Json.str ("Branch " ++ id2 ++ " not found"))]] := by
  refine ⟨?_, ?_, rfl, rfl, ?_⟩
  · simp [branch_query, h]
  · simp [branch_merge, h]
  · intro s0 id2 sql2 h2
    by_cases hx : schemaExists s0 ("branch_" ++ id2) = true
    · have hafter : schemaExists (branch_discard s0 id2).1 ("branch_" ++ id2) = false := by
        simp only [branch_discard, hx, if_pos]
        exact any_eq_after_remove _ _
      simp [branch_query, hafter]
    · simp only [branch_discard] at h2
      rw [if_neg hx] at h2
      exact absurd h2 (by simp)

theorem c4_branch_not_found_witness :
    schemaExists emptyEngine ("branch_" ++ "b1") = false
    ∧ (branch_query (fun _ => []) emptyEngine "b1" "SELECT 1"
        = [Json.obj [("error", Json.str ("Branch " ++ "b1" ++ " not found"))]]
      ∧ (branch_merge emptyEngine "b1" "branch_wins").2
        = Json.obj [("error", Json.str ("Branch " ++ "b1" ++ " not found")),
            ("merged", Json.num 0)]
      ∧ (handle_branch_query (fun _ => []) emptyEngine "b1" "SELECT 1").2.isErrorFlag = false
      ∧ (handle_branch_merge emptyEngine "b1" "branch_wins").2.isErrorFlag = false
      ∧ ∀ (s0 : EngineState) (id2 sql2 : String), (branch_discard s0 id2).2 = true →
          branch_query (fun _ => []) (branch_discard s0 id2).1 id2 sql2
            = [Json.obj [("error", Json.str ("Branch " ++ id2 ++ " not found"))]]) :=
  ⟨rfl, c4_branch_not_found (fun _ => []) emptyEngine "b1" "SELECT 1" "branch_wins" rfl⟩

theorem runStdio_filter {σ : Type} (loads : String → Option Json) (tools : Json)
    (toolCall : σ → Json → Json → σ × Json) (h0 : loads "" = none) :
    ∀ (lines : List String) (st : σ),
      runStdio loads tools toolCall st lines =
        runStdio loads tools toolCall st (lines.filter (fun l => (loads (pyStrip l)).isSome)) := by
  intro lines
  induction lines with
  | nil => intro st; rfl
  | cons line rest ih =>
    intro st
    by_cases hb : pyStrip line = ""
    · rw [List.filter_cons, runStdio.eq_def]
      simp only [hb, h0, Option.isSome_none, cond_false, if_pos rfl]
      exact ih st
    · rw [List.filter_cons]
      cases hl : loads (pyStrip line) with
      | none =>
        rw [runStdio.eq_def]
        simp only [hb, if_neg hb, hl, Option.isSome_none, cond_false]
        exact ih st
      | some j =>
        simp only [hl, Option.isSome_some, cond_true]
        conv_lhs => rw [runStdio.eq_def]
        conv_rhs => rw [runStdio.eq_def]
        cases j <;> simp [ih, hb, hl]

/-- C10: the stdio JSON-RPC loop behaves on any stdin line list exactly as
on the sublist of lines whose stripped text parses as JSON — a line that is
not valid JSON (the loads model returns none, as it does on the blank
stripped line) contributes no response frame and does not disturb the
processing of subsequent lines, and only parseable lines ever produce an
output frame. -/
theorem c10_stdio_invalid_lines {σ : Type} (loads : String → Option Json) (tools : Json)
    (toolCall : σ → Json → Json → σ × Json) (st : σ) (lines : List String)
    (h0 : loads "" = none) :
    runStdio loads tools toolCall st lines
      = runStdio loads tools toolCall st (lines.filter (fun l => (loads (pyStrip l)).isSome)) :=
  runStdio_filter loads tools toolCall h0 lines st

theorem c10_stdio_invalid_lines_witness :
    parseTop "" = none
    ∧ runStdio parseTop (Json.arr []) (fun (s : Nat) _ _ => (s, Json.null)) 0
        ["\x7bnot json", "", "boo", "[1, 2"]
      = runStdio parseTop (Json.arr []) (fun (s : Nat) _ _ => (s, Json.null)) 0
        (["\x7bnot json", "", "boo", "[1, 2"].filter
          (fun l => (parseTop (pyStrip l)).isSome)) :=
  ⟨rfl, c10_stdio_invalid_lines parseTop (Json.arr []) (fun (s : Nat) _ _ => (s, Json.null)) 0
    ["\x7bnot json", "", "boo", "[1, 2"] rfl⟩

/-- C6: for every trigger state and content, test_trigger of a registered
trigger returns matched = (score at least threshold), the score |M| /
max(|W|, 1) rounded to four decimals, the configured threshold and the
trigger name (with its concept); an unknown trigger_id yields the data
result with matched false and error "Trigger not found", not an error. -/
theorem c6_test_trigger (s : EngineState) (tid content : String) :
    (s.triggers.filter (fun t => t.trigger_id == tid) = [] →
      test_trigger s tid content = .notFound)
    ∧ (∀ (t : TriggerRow) (rest : List TriggerRow),
        s.triggers.filter (fun t => t.trigger_id == tid) = t :: rest →
        test_trigger s tid content =
          .found (decide (t.threshold ≤ triggerScore t.concept content))
            (round4 (triggerScore t.concept content)) t.threshold t.name t.concept) := by
  constructor
  · intro h
    simp [test_trigger, h]
  · intro t rest h
    simp [test_trigger, h, triggerScore, matchedTokens, conceptTokens]

theorem c6_witness :
    stShort.triggers.filter (fun t => t.trigger_id == "t1") = trigShort :: []
    ∧ test_trigger stShort "t1" "x"
        = .found (decide (trigShort.threshold ≤ triggerScore trigShort.concept "x"))
            (round4 (triggerScore trigShort.concept "x")) trigShort.threshold
            trigShort.name trigShort.concept :=
  ⟨rfl, (c6_test_trigger stShort "t1" "x").2 trigShort [] rfl⟩

/-- C7 counterexample: for a registered trigger whose concept "ab" has no
token longer than two characters, every such token (vacuously) occurs in
the lowercased content, yet the test_trigger score is 0, not 1.0 — the
claimed equivalence fails in the no-token case it explicitly includes. -/
theorem c7_cex :
    (∀ w ∈ conceptTokens "ab", occursIn w.data (pyLower "x").data = true)
    ∧ triggerScore "ab" "x" = 0
    ∧ test_trigger stShort "t1" "x" = .found false 0 (7 / 10) "short" "ab" := by
  refine ⟨by decide, by with_unfolding_all decide, by with_unfolding_all decide⟩

/-- C7 (amended): for a registered trigger, the exact test_trigger score
|M| / max(|W|, 1) equals 1.0 iff the concept has at least one token longer
than two characters and every such token occurs, as a substring, in the
lowercased content; a concept with no such tokens scores 0. -/
theorem c7_score_one_iff (s : EngineState) (tid content : String) (t : TriggerRow)
    (rest : List TriggerRow)
    (h : s.triggers.filter (fun u => u.trigger_id == tid) = t :: rest) :
    triggerScore t.concept content = 1 ↔
      conceptTokens t.concept ≠ []
      ∧ ∀ w ∈ conceptTokens t.concept, occursIn w.data (pyLower content).data = true := by
  unfold triggerScore matchedTokens
  rcases hW : conceptTokens t.concept with _ | ⟨w0, ws⟩
  · simp [hW]
  · have hmax : ((w0 :: ws).length ⊔ 1) = (w0 :: ws).length := by
      simp
    rw [hmax]
    have hne : (((w0 :: ws).length : Nat) : Rat) ≠ 0 := by
      exact Nat.cast_ne_zero.mpr (by simp)
    rw [div_eq_one_iff_eq hne, Nat.cast_inj, List.filter_length_eq_length]
    simp

theorem c7_score_one_iff_witness :
    stShort.triggers.filter (fun u => u.trigger_id == "t1") = trigShort :: []
    ∧ (triggerScore trigShort.concept "x" = 1 ↔
        conceptTokens trigShort.concept ≠ []
        ∧ ∀ w ∈ conceptTokens trigShort.concept, occursIn w.data (pyLower "x").data = true) :=
  ⟨rfl, c7_score_one_iff stShort "t1" "x" trigShort [] rfl⟩

theorem stepsAscend_tail (t : Trace) (ts : List Trace) (h : stepsAscend (t :: ts)) :
    stepsAscend ts := by
  cases ts with
  | nil => trivial
  | cons u us => exact h.2

theorem lastBySt_concat (a : Trace) : ∀ l : List Trace,
    (∀ u ∈ l, u.step_number < a.step_number) → lastBySt (l ++ [a]) = some a := by
  intro l
  induction l with
  | nil => intro _; rfl
  | cons t ts ih =>
    intro hall
    show (match lastBySt (ts ++ [a]) with
          | none => some t
          | some m => if m.step_number ≥ t.step_number then some m else some t) = some a
    rw [ih (fun u hu => hall u (List.mem_cons_of_mem _ hu))]
    exact if_pos (Nat.le_of_lt (hall t (List.mem_cons_self _ _)))

theorem mkChain_mem_step (sid : String) : ∀ (cs : List LogCall) (n : Nat) (ph : String),
    ∀ t ∈ mkChain sid n ph cs, n ≤ t.step_number ∧ t.step_number < n + cs.length := by
  intro cs
  induction cs with
  | nil => intro n ph t ht; cases ht
  | cons c cs ih =>
    intro n ph t ht
    rcases ht with _ | ht
    · simp
    · have := ih (n + 1) (sha256hex (ph ++ sid ++ c.step_type ++ c.content)) t (by assumption)
      constructor
      · omega
      · simpa [Nat.add_comm, Nat.add_left_comm] using this.2

theorem mkChain_mem_props (sid : String) : ∀ (cs : List LogCall) (n : Nat) (ph : String),
    ∀ t ∈ mkChain sid n ph cs,
      t.session_id = sid
      ∧ t.hash = sha256hex (t.prev_hash ++ sid ++ t.step_type ++ t.content) := by
  intro cs
  induction cs with
  | nil => intro n ph t ht; cases ht
  | cons c cs ih =>
    intro n ph t ht
    rcases ht with _ | ht
    · exact ⟨rfl, rfl⟩
    · exact ih _ _ t (by assumption)

theorem mkChain_length (sid : String) : ∀ (cs : List LogCall) (n : Nat) (ph : String),
    (mkChain sid n ph cs).length = cs.length := by
  intro cs
  induction cs with
  | nil => intro n ph; rfl
  | cons c cs ih => intro n ph; simp [mkChain, ih]

theorem mkChain_ascend (sid : String) : ∀ (cs : List LogCall) (n : Nat) (ph : String),
    stepsAscend (mkChain sid n ph cs) := by
  intro cs
  induction cs with
  | nil => intro n ph; trivial
  | cons c cs ih =>
    intro n ph
    cases cs with
    | nil => trivial
    | cons d ds =>
      exact ⟨Nat.lt_succ_self n, ih (n + 1) _⟩

theorem mkChain_append (sid : String) : ∀ (cs : List LogCall) (c : LogCall) (n : Nat) (ph : String),
    mkChain sid n ph (cs ++ [c]) =
      mkChain sid n ph cs ++
        [⟨c.trace_id, sid, c.agent_id, n + cs.length, c.step_type, c.content, c.importance,
          c.metadata, chainEndHash sid ph cs,
          sha256hex (chainEndHash sid ph cs ++ sid ++ c.step_type ++ c.content)⟩] := by
  intro cs
  induction cs with
  | nil => intro c n ph; simp [mkChain, chainEndHash]
  | cons d ds ih =>
    intro c n ph
    show mkChain sid n ph (d :: (ds ++ [c])) = _
    rw [mkChain, ih]
    simp [mkChain, chainEndHash, Nat.add_assoc, Nat.add_comm 1 ds.length]

theorem chainEndHash_append (sid : String) : ∀ (cs : List LogCall) (c : LogCall) (ph : String),
    chainEndHash sid ph (cs ++ [c]) =
      sha256hex (chainEndHash sid ph cs ++ sid ++ c.step_type ++ c.content) := by
  intro cs
  induction cs with
  | nil => intro c ph; rfl
  | cons d ds ih => intro c ph; exact ih c _

theorem insBy_front {α : Type} (le : α → α → Bool) (x y : α) (ys : List α)
    (h : le x y = true) : insBy le x (y :: ys) = x :: y :: ys := by
  simp [insBy, h]

theorem sortBy_of_ascend : ∀ l : List Trace, stepsAscend l → sortBy stepLe l = l := by
  intro l
  induction l with
  | nil => intro _; rfl
  | cons t ts ih =>
    intro h
    rw [sortBy, ih (stepsAscend_tail t ts h)]
    cases ts with
    | nil => rfl
    | cons u us => exact insBy_front stepLe t u us (by simp [stepLe]; exact Nat.le_of_lt h.1)

theorem verifyChain_mkChain (sid : String) : ∀ (cs : List LogCall) (n : Nat) (ph : String),
    verifyChain ph (mkChain sid n ph cs) = true := by
  intro cs
  induction cs with
  | nil => intro n ph; rfl
  | cons c cs ih =>
    intro n ph
    rw [mkChain, verifyChain]
    simp only [ne_eq, not_true_eq_false, if_neg]
    rw [if_neg (by simp), if_neg (by simp)]
    exact ih (n + 1) _

theorem sessionTraces_log_other (s : EngineState) (c : LogCall) (sid : String)
    (h : c.session_id ≠ sid) :
    sessionTraces (log_reasoning_step s c) sid = sessionTraces s sid := by
  show List.filter _ (s.traces ++ _) = _
  rw [List.filter_append]
  simp [sessionTraces, h]

theorem sessionTraces_log_same (s : EngineState) (c : LogCall) (sid : String) (pcs : List LogCall)
    (hc : c.session_id = sid) (hs : sessionTraces s sid = mkChain sid 0 "" pcs) :
    sessionTraces (log_reasoning_step s c) sid = mkChain sid 0 "" (pcs ++ [c]) := by
  rcases List.eq_nil_or_concat pcs with hp | ⟨ps, d, hp⟩
  · subst hp
    have hrow : lastBySt (sessionTraces s c.session_id) = none := by rw [hc, hs]; rfl
    have hlog : log_reasoning_step s c = { s with traces := s.traces ++
        [⟨c.trace_id, c.session_id, c.agent_id, 0, c.step_type, c.content, c.importance,
          c.metadata, "", sha256hex ("" ++ c.session_id ++ c.step_type ++ c.content)⟩] } := by
      rw [log_reasoning_step, hrow]
    rw [hlog]
    show List.filter _ (s.traces ++ _) = _
    rw [List.filter_append]
    have hfs : List.filter (fun t => t.session_id == sid) s.traces = [] := hs
    rw [hfs]
    simp [mkChain, hc]
  · rw [List.concat_eq_append] at hp
    subst hp
    have hrow : lastBySt (sessionTraces s c.session_id) = some
        ⟨d.trace_id, sid, d.agent_id, 0 + ps.length, d.step_type, d.content,
          d.importance, d.metadata, chainEndHash sid "" ps,
          sha256hex (chainEndHash sid "" ps ++ sid ++ d.step_type ++ d.content)⟩ := by
      rw [hc, hs, mkChain_append]
      exact lastBySt_concat _ _ (fun u hu => by
        have := mkChain_mem_step sid ps 0 "" u hu
        simpa using this.2)
    have hlog : log_reasoning_step s c = { s with traces := s.traces ++
        [⟨c.trace_id, c.session_id, c.agent_id, (0 + ps.length) + 1, c.step_type, c.content,
          c.importance, c.metadata,
          sha256hex (chainEndHash sid "" ps ++ sid ++ d.step_type ++ d.content),
          sha256hex (sha256hex (chainEndHash sid "" ps ++ sid ++ d.step_type ++ d.content)
            ++ c.session_id ++ c.step_type ++ c.content)⟩] } := by
      rw [log_reasoning_step, hrow]
    rw [hlog]
    show List.filter _ (s.traces ++ _) = _
    rw [List.filter_append]
    have hfs : List.filter (fun t => t.session_id == sid) s.traces
        = mkChain sid 0 "" (ps ++ [d]) := hs
    rw [hfs, mkChain_append sid (ps ++ [d]) c 0 ""]
    rw [chainEndHash_append]
    simp [hc, mkChain_append]

theorem applyLogs_mkChain (sid : String) : ∀ (calls : List LogCall) (s : EngineState)
    (pcs : List LogCall), sessionTraces s sid = mkChain sid 0 "" pcs →
    sessionTraces (applyLogs s calls) sid = mkChain sid 0 "" (pcs ++ callsFor sid calls) := by
  intro calls
  induction calls with
  | nil => intro s pcs hs; simpa [applyLogs, callsFor] using hs
  | cons c cs ih =>
    intro s pcs hs
    rw [show applyLogs s (c :: cs) = applyLogs (log_reasoning_step s c) cs from rfl]
    by_cases hc : c.session_id = sid
    · have hstep := sessionTraces_log_same s c sid pcs hc hs
      have h2 := ih (log_reasoning_step s c) (pcs ++ [c]) hstep
      rw [h2]
      simp [callsFor, List.filter_cons, hc]
    · have hstep := sessionTraces_log_other s c sid hc
      have h2 := ih (log_reasoning_step s c) pcs (hstep.trans hs)
      rw [h2]
      simp [callsFor, List.filter_cons, hc]

theorem mkChain_get_step (sid : String) : ∀ (cs : List LogCall) (n : Nat) (ph : String)
    (i : Fin (mkChain sid n ph cs).length),
    ((mkChain sid n ph cs).get i).step_number = n + i.val := by
  intro cs
  induction cs with
  | nil => intro n ph i; exact absurd i.isLt (by simp [mkChain])
  | cons c cs ih =>
    intro n ph i
    rcases i with ⟨iv, hv⟩
    cases iv with
    | zero => rfl
    | succ j =>
      have h2 : j < (mkChain sid (n + 1)
          (sha256hex (ph ++ sid ++ c.step_type ++ c.content)) cs).length := by
        have h3 := hv
        rw [mkChain] at h3
        simpa using h3
      have := ih (n + 1) (sha256hex (ph ++ sid ++ c.step_type ++ c.content)) ⟨j, h2⟩
      show ((mkChain sid (n + 1) (sha256hex (ph ++ sid ++ c.step_type ++ c.content)) cs).get
          ⟨j, h2⟩).step_number = n + (j + 1)
      rw [this]
      show n + 1 + j = n + (j + 1)
      omega

theorem mkChain_get_prev0 (sid : String) : ∀ (cs : List LogCall) (n : Nat) (ph : String)
    (i : Fin (mkChain sid n ph cs).length), i.val = 0 →
    ((mkChain sid n ph cs).get i).prev_hash = ph := by
  intro cs
  cases cs with
  | nil => intro n ph i; exact absurd i.isLt (by simp [mkChain])
  | cons c cs =>
    intro n ph i hi
    rcases i with ⟨iv, hv⟩
    cases iv with
    | zero => rfl
    | succ j => simp at hi

theorem mkChain_get_link (sid : String) : ∀ (cs : List LogCall) (n : Nat) (ph : String)
    (i j : Fin (mkChain sid n ph cs).length), i.val + 1 = j.val →
    ((mkChain sid n ph cs).get j).prev_hash = ((mkChain sid n ph cs).get i).hash := by
  intro cs
  induction cs with
  | nil => intro n ph i _ _; exact absurd i.isLt (by simp [mkChain])
  | cons c cs ih =>
    intro n ph i j hij
    rcases i with ⟨iv, hi⟩
    rcases j with ⟨jv, hj⟩
    have hij2 : iv + 1 = jv := hij
    cases jv with
    | zero => omega
    | succ jv =>
      have hj2 : jv < (mkChain sid (n + 1)
          (sha256hex (ph ++ sid ++ c.step_type ++ c.content)) cs).length := by
        have h3 := hj
        rw [mkChain] at h3
        simpa using h3
      cases iv with
      | zero =>
        have hjv : jv = 0 := by omega
        subst hjv
        cases cs with
        | nil => simp [mkChain] at hj2
        | cons d ds => rfl
      | succ iv =>
        have hi2 : iv < (mkChain sid (n + 1)
            (sha256hex (ph ++ sid ++ c.step_type ++ c.content)) cs).length := by
          have h3 := hi
          rw [mkChain] at h3
          simpa using h3
        exact ih (n + 1) (sha256hex (ph ++ sid ++ c.step_type ++ c.content))
          ⟨iv, hi2⟩ ⟨jv, hj2⟩ (show iv + 1 = jv by omega)

theorem storedSession_eq (s0 : EngineState) (sid : String) (calls : List LogCall)
    (h0 : sessionTraces s0 sid = []) :
    storedSession s0 calls sid = mkChain sid 0 "" (callsFor sid calls) := by
  have hmain := applyLogs_mkChain sid calls s0 [] (by simpa [mkChain] using h0)
  rw [storedSession, hmain]
  simp only [List.nil_append]
  exact sortBy_of_ascend _ (mkChain_ascend sid _ 0 "")

/-- C1: after any sequence of log_reasoning_step calls into an initially
trace-free session, the stored traces of that session ordered by
step_number form the dense sequence 0, 1, 2, ...; the first trace has
prev_hash empty; every later trace links to the hash of its predecessor;
and every trace hashes to the SHA-256 hex digest of the UTF-8
concatenation prev_hash, session_id, step_type, content. -/
theorem c1_hash_chain (s0 : EngineState) (sid : String) (calls : List LogCall)
    (h0 : sessionTraces s0 sid = []) :
    (∀ (i : Nat) (h : i < (storedSession s0 calls sid).length),
      ((storedSession s0 calls sid).get ⟨i, h⟩).step_number = i
      ∧ ((storedSession s0 calls sid).get ⟨i, h⟩).hash
          = sha256hex (((storedSession s0 calls sid).get ⟨i, h⟩).prev_hash ++ sid
              ++ ((storedSession s0 calls sid).get ⟨i, h⟩).step_type
              ++ ((storedSession s0 calls sid).get ⟨i, h⟩).content))
    ∧ (∀ h : 0 < (storedSession s0 calls sid).length,
        ((storedSession s0 calls sid).get ⟨0, h⟩).prev_hash = "")
    ∧ (∀ (i : Nat) (h : i + 1 < (storedSession s0 calls sid).length),
        ((storedSession s0 calls sid).get ⟨i + 1, h⟩).prev_hash
          = ((storedSession s0 calls sid).get ⟨i, Nat.lt_of_succ_lt h⟩).hash) := by
  have hst := storedSession_eq s0 sid calls h0
  refine ⟨?_, ?_, ?_⟩
  · intro i h
    have hget := List.get_of_eq hst ⟨i, h⟩
    rw [hget]
    constructor
    · rw [mkChain_get_step]
      show 0 + i = i
      omega
    · exact (mkChain_mem_props sid (callsFor sid calls) 0 "" _ (List.get_mem _ _ _)).2
  · intro h
    have hget := List.get_of_eq hst ⟨0, h⟩
    rw [hget]
    exact mkChain_get_prev0 sid (callsFor sid calls) 0 "" _ rfl
  · intro i h
    have hget1 := List.get_of_eq hst ⟨i + 1, h⟩
    have hget2 := List.get_of_eq hst ⟨i, Nat.lt_of_succ_lt h⟩
    rw [hget1, hget2]
    exact mkChain_get_link sid (callsFor sid calls) 0 "" _ _ rfl

theorem c1_hash_chain_witness :
    sessionTraces emptyEngine "S" = []
    ∧ ((∀ (i : Nat) (h : i < (storedSession emptyEngine [callA, callB] "S").length),
        ((storedSession emptyEngine [callA, callB] "S").get ⟨i, h⟩).step_number = i
        ∧ ((storedSession emptyEngine [callA, callB] "S").get ⟨i, h⟩).hash
            = sha256hex (((storedSession emptyEngine [callA, callB] "S").get ⟨i, h⟩).prev_hash ++ "S"
                ++ ((storedSession emptyEngine [callA, callB] "S").get ⟨i, h⟩).step_type
                ++ ((storedSession emptyEngine [callA, callB] "S").get ⟨i, h⟩).content))
      ∧ (∀ h : 0 < (storedSession emptyEngine [callA, callB] "S").length,
          ((storedSession emptyEngine [callA, callB] "S").get ⟨0, h⟩).prev_hash = "")
      ∧ (∀ (i : Nat) (h : i + 1 < (storedSession emptyEngine [callA, callB] "S").length),
          ((storedSession emptyEngine [callA, callB] "S").get ⟨i + 1, h⟩).prev_hash
            = ((storedSession emptyEngine [callA, callB] "S").get
                ⟨i, Nat.lt_of_succ_lt h⟩).hash)) :=
  ⟨rfl, c1_hash_chain emptyEngine "S" [callA, callB] rfl⟩

theorem verifyChain_iff : ∀ (rows : List Trace) (prev : String),
    verifyChain prev rows = true ↔ chainChecksFrom prev rows := by
  intro rows
  induction rows with
  | nil => intro prev; simp [verifyChain, chainChecksFrom]
  | cons r rest ih =>
    intro prev
    rw [verifyChain, chainChecksFrom]
    by_cases h1 : r.prev_hash = prev
    · rw [if_neg (by simpa using h1)]
      by_cases h2 : r.hash = sha256hex (r.prev_hash ++ r.session_id ++ r.step_type ++ r.content)
      · rw [if_neg (by simpa using h2), ih]
        simp [h1, h2]
      · rw [if_pos (by simpa using h2)]
        simp [h2]
    · rw [if_pos (by simpa using h1)]
      simp [h1]

/-- C2 counterexample: for a session produced entirely by (zero)
log_reasoning_step calls, replay with verify_chain requested leaves
chain_valid None even though every per-step check passes vacuously, so
chain_valid is neither true nor does the claimed iff hold. -/
theorem c2_cex :
    (replay_session (applyLogs emptyEngine []) "S" true).chain_valid = none
    ∧ chainChecksFrom "" (replay_session (applyLogs emptyEngine []) "S" true).steps
    ∧ (replay_session (applyLogs emptyEngine []) "S" true).chain_valid ≠ some true :=
  ⟨rfl, trivial, by decide⟩

/-- C2 (amended): for every nonempty session produced entirely by
log_reasoning_step, replay_session with verify_chain true returns the
steps in ascending step order with chain_valid true; chain_valid is None
whenever verification was not requested; and whenever chain_valid is a
boolean it is true exactly when all per-step checks (prev_hash linkage
and hash recomputation) pass, false from the first failure on. -/
theorem c2_replay_verify :
    (∀ (s0 : EngineState) (sid : String) (calls : List LogCall),
      sessionTraces s0 sid = [] → callsFor sid calls ≠ [] →
        (replay_session (applyLogs s0 calls) sid true).steps
            = mkChain sid 0 "" (callsFor sid calls)
        ∧ stepsAscend (replay_session (applyLogs s0 calls) sid true).steps
        ∧ (replay_session (applyLogs s0 calls) sid true).chain_valid = some true)
    ∧ (∀ (s : EngineState) (sid : String), (replay_session s sid false).chain_valid = none)
    ∧ (∀ (s : EngineState) (sid : String) (b : Bool),
        (replay_session s sid true).chain_valid = some b →
        (b = true ↔ chainChecksFrom "" (replay_session s sid true).steps)) := by
  refine ⟨?_, ?_, ?_⟩
  · intro s0 sid calls h0 hne
    have hmain := applyLogs_mkChain sid calls s0 [] (by simpa [mkChain] using h0)
    have hrows : sortBy stepLe (sessionTraces (applyLogs s0 calls) sid)
        = mkChain sid 0 "" (callsFor sid calls) := by
      rw [hmain]
      simp only [List.nil_append]
      exact sortBy_of_ascend _ (mkChain_ascend sid _ 0 "")
    have hlen : (mkChain sid 0 "" (callsFor sid calls)).length = (callsFor sid calls).length :=
      mkChain_length sid _ 0 ""
    have hnonempty : (mkChain sid 0 "" (callsFor sid calls)).isEmpty = false := by
      rcases hcf : callsFor sid calls with _ | ⟨c, cs⟩
      · exact absurd hcf hne
      · rfl
    refine ⟨?_, ?_, ?_⟩
    · show sortBy stepLe (sessionTraces (applyLogs s0 calls) sid) = _
      exact hrows
    · show stepsAscend (sortBy stepLe (sessionTraces (applyLogs s0 calls) sid))
      rw [hrows]
      exact mkChain_ascend sid _ 0 ""
    · show (if true && !(sortBy stepLe (sessionTraces (applyLogs s0 calls) sid)).isEmpty
          then some (verifyChain "" (sortBy stepLe (sessionTraces (applyLogs s0 calls) sid)))
          else none) = some true
      rw [hrows, hnonempty]
      simp [verifyChain_mkChain]
  · intro s sid
    rfl
  · intro s sid b hb
    have hb2 : (if (true && !(sortBy stepLe (sessionTraces s sid)).isEmpty) = true
        then some (verifyChain "" (sortBy stepLe (sessionTraces s sid))) else none)
          = some b := hb
    by_cases he : (sortBy stepLe (sessionTraces s sid)).isEmpty = true
    · rw [he] at hb2
      simp at hb2
    · have he2 : (sortBy stepLe (sessionTraces s sid)).isEmpty = false := by
        simpa using he
      rw [he2] at hb2
      simp at hb2
      show b = true ↔ chainChecksFrom "" (sortBy stepLe (sessionTraces s sid))
      rw [← hb2]
      exact verifyChain_iff _ ""

theorem c2_replay_verify_witness :
    (sessionTraces emptyEngine "S" = [] ∧ callsFor "S" [callA, callB] ≠ [])
    ∧ ((replay_session (applyLogs emptyEngine [callA, callB]) "S" true).steps
          = mkChain "S" 0 "" (callsFor "S" [callA, callB])
        ∧ stepsAscend (replay_session (applyLogs emptyEngine [callA, callB]) "S" true).steps
        ∧ (replay_session (applyLogs emptyEngine [callA, callB]) "S" true).chain_valid
            = some true) :=
  ⟨⟨rfl, by decide⟩, c2_replay_verify.1 emptyEngine "S" [callA, callB] rfl (by decide)⟩

theorem mem_insBy {α : Type} (le : α → α → Bool) (x a : α) : ∀ l : List α,
    a ∈ insBy le x l → a = x ∨ a ∈ l := by
  intro l
  induction l with
  | nil => intro h; simp [insBy] at h; exact Or.inl h
  | cons y ys ih =>
    intro h
    rw [insBy] at h
    split at h
    · rcases List.mem_cons.mp h with h1 | h2
      · exact Or.inl h1
      · exact Or.inr h2
    · rcases List.mem_cons.mp h with h1 | h2
      · exact Or.inr (List.mem_cons.mpr (Or.inl h1))
      · rcases ih h2 with h3 | h4
        · exact Or.inl h3
        · exact Or.inr (List.mem_cons.mpr (Or.inr h4))

theorem mem_sortBy {α : Type} (le : α → α → Bool) (a : α) : ∀ l : List α,
    a ∈ sortBy le l → a ∈ l := by
  intro l
  induction l with
  | nil => intro h; simpa [sortBy] using h
  | cons x xs ih =>
    intro h
    rw [sortBy] at h
    rcases mem_insBy le x a _ h with h1 | h2
    · exact h1 ▸ List.mem_cons_self _ _
    · exact List.mem_cons.mpr (Or.inr (ih h2))

/-- C8: when every whitespace token of the query is at most two characters
long (in particular for the empty query), search_memory applies no text
filter: the result is exactly the take of top_k from the agent memories
passing the remaining filters in importance-then-recency order, identical
to the empty-query search, and every returned memory belongs to the agent
and respects the memory_type and min_importance filters. -/
theorem c8_search_no_text (s : EngineState) (agent_id query_text : String) (top_k : Nat)
    (memory_type : Option String) (min_importance : Option Rat)
    (h : searchWords query_text = []) :
    search_memory s agent_id query_text top_k memory_type min_importance
        = List.take top_k (sortBy memBefore
            (s.memories.filter (memMatches agent_id [] memory_type min_importance)))
    ∧ search_memory s agent_id query_text top_k memory_type min_importance
        = search_memory s agent_id "" top_k memory_type min_importance
    ∧ ∀ m ∈ search_memory s agent_id query_text top_k memory_type min_importance,
        m.agent_id = agent_id
        ∧ (∀ t, memory_type = some t → t ≠ "" → m.memory_type = t)
        ∧ (∀ q, min_importance = some q → q ≤ m.importance) := by
  have h1 : search_memory s agent_id query_text top_k memory_type min_importance
      = List.take top_k (sortBy memBefore
          (s.memories.filter (memMatches agent_id [] memory_type min_importance))) := by
    rw [search_memory, h]
  refine ⟨h1, ?_, ?_⟩
  · rw [h1, search_memory]
    rfl
  · intro m hm
    rw [h1] at hm
    have hm2 := mem_sortBy memBefore m _ (List.take_subset _ _ hm)
    have hm3 := List.mem_filter.mp hm2
    have hmm := hm3.2
    rw [memMatches.eq_def] at hmm
    simp only [Bool.and_eq_true] at hmm
    obtain ⟨⟨⟨ha, _⟩, ht⟩, hi⟩ := hmm
    refine ⟨by simpa using ha, ?_, ?_⟩
    · intro t htt hne
      rw [htt] at ht
      have ht2 : (if t = "" then true else (m.memory_type == t)) = true := ht
      rw [if_neg hne] at ht2
      simpa using ht2
    · intro q hq
      rw [hq] at hi
      have hi2 : decide (q ≤ m.importance) = true := hi
      simpa using hi2

theorem c8_search_no_text_witness :
    searchWords "a b" = []
    ∧ (search_memory stMem "a1" "a b" 10 none none
        = List.take 10 (sortBy memBefore (stMem.memories.filter (memMatches "a1" [] none none)))
      ∧ search_memory stMem "a1" "a b" 10 none none
        = search_memory stMem "a1" "" 10 none none
      ∧ ∀ m ∈ search_memory stMem "a1" "a b" 10 none none,
          m.agent_id = "a1"
          ∧ (∀ t, (none : Option String) = some t → t ≠ "" → m.memory_type = t)
          ∧ (∀ q, (none : Option Rat) = some q → q ≤ m.importance)) :=
  ⟨rfl, c8_search_no_text stMem "a1" "a b" 10 none none rfl⟩

/-! ## JSON round trip and the state upsert (C5)

The chain below proves that parseTop inverts dumpJson on every Json value,
then applies it to the set_state/get_state pair. -/

theorem char_valid_nat (c : Char) : c.toNat.isValidChar := by
  have := c.valid
  simp [UInt32.isValidChar, Char.toNat] at this ⊢
  exact this

theorem string_mk_data : ∀ s : String, String.mk s.data = s := fun ⟨_⟩ => rfl

theorem charToNat_ofNat (n : Nat) (h : n.isValidChar) : (Char.ofNat n).toNat = n := by
  simp [Char.ofNat, h, Char.toNat, Char.ofNatAux, UInt32.toNat, BitVec.toNat_ofNatLt]

theorem char_eq_of_toNat (c d : Char) (h : c.toNat = d.toNat) : c = d := by
  have h1 := Char.ofNat_toNat c
  have h2 := Char.ofNat_toNat d
  rw [← h1, ← h2, h]

theorem char_ne_of_toNat (c d : Char) (h : c.toNat ≠ d.toNat) : c ≠ d :=
  fun he => h (he ▸ rfl)

theorem digit_toNat (d : Nat) (h : d < 10) : (Char.ofNat (48 + d)).toNat = 48 + d :=
  charToNat_ofNat _ (Or.inl (by omega))

theorem printNatAux_digits : ∀ (fuel n : Nat), ∀ c ∈ printNatAux fuel n, isDigitCh c = true := by
  intro fuel
  induction fuel with
  | zero => intro n c hc; cases hc
  | succ f ih =>
    intro n c hc
    rw [printNatAux] at hc
    by_cases hn : n = 0
    · rw [if_pos hn] at hc; cases hc
    · rw [if_neg hn] at hc
      rcases List.mem_append.mp hc with h1 | h2
      · exact ih _ c h1
      · have : c = Char.ofNat (48 + n % 10) := by simpa using h2
        subst this
        simp [isDigitCh, digit_toNat (n % 10) (Nat.mod_lt _ (by omega))]
        omega

theorem printNatCl_digits (n : Nat) : ∀ c ∈ printNatCl n, isDigitCh c = true := by
  intro c hc
  rw [printNatCl] at hc
  by_cases hn : n = 0
  · rw [if_pos hn] at hc
    have : c = '0' := by simpa using hc
    subst this
    decide
  · rw [if_neg hn] at hc
    exact printNatAux_digits n n c hc

theorem printNatCl_ne_nil (n : Nat) : printNatCl n ≠ [] := by
  rw [printNatCl]
  by_cases hn : n = 0
  · rw [if_pos hn]; simp
  · rw [if_neg hn]
    rcases Nat.exists_eq_succ_of_ne_zero hn with ⟨m, hm⟩
    subst hm
    rw [printNatAux, if_neg (by omega)]
    simp

theorem digitsVal_concat (l : List Char) (c : Char) :
    digitsVal (l ++ [c]) = 10 * digitsVal l + (c.toNat - 48) := by
  rw [digitsVal, digitsVal, List.foldl_append]
  rfl

theorem digitsVal_printNatAux : ∀ (fuel n : Nat), n ≤ fuel →
    digitsVal (printNatAux fuel n) = n := by
  intro fuel
  induction fuel with
  | zero => intro n h; interval_cases n; rfl
  | succ f ih =>
    intro n h
    rw [printNatAux]
    by_cases hn : n = 0
    · rw [if_pos hn]; rw [hn]; rfl
    · rw [if_neg hn, digitsVal_concat, ih (n / 10) (by omega),
        digit_toNat (n % 10) (Nat.mod_lt _ (by omega))]
      omega

theorem digitsVal_printNatCl (n : Nat) : digitsVal (printNatCl n) = n := by
  rw [printNatCl]
  by_cases hn : n = 0
  · rw [if_pos hn, hn]; rfl
  · rw [if_neg hn]
    exact digitsVal_printNatAux n n (Nat.le_refl n)

theorem spanDigits_append : ∀ (ds rest : List Char), (∀ c ∈ ds, isDigitCh c = true) →
    numStop rest → spanDigits (ds ++ rest) = (ds, rest) := by
  intro ds
  induction ds with
  | nil =>
    intro rest _ hr
    cases rest with
    | nil => rfl
    | cons c cs =>
      rw [List.nil_append, spanDigits]
      rw [if_neg (by rw [hr.1]; simp)]
  | cons d ds ih =>
    intro rest hall hr
    rw [List.cons_append, spanDigits, if_pos (hall d (List.mem_cons_self _ _)),
      ih rest (fun c hc => hall c (List.mem_cons_of_mem _ hc)) hr]

theorem parseNumCl_print (n : Nat) (rest : List Char) (hr : numStop rest) :
    parseNumCl (printNatCl n ++ rest) = some (n, rest) := by
  rw [parseNumCl, spanDigits_append _ _ (printNatCl_digits n) hr]
  simp only []
  rw [if_neg (by simpa using printNatCl_ne_nil n)]
  cases rest with
  | nil =>
    show some (digitsVal (printNatCl n), ([] : List Char)) = some (n, [])
    rw [digitsVal_printNatCl]
  | cons c cs =>
    have hcond : (decide (c = '.') || decide (c = 'e') || decide (c = 'E')) = false := by
      rcases hr with ⟨h1, h2, h3, h4⟩
      simp [h2, h3, h4]
    show (if (decide (c = '.') || decide (c = 'e') || decide (c = 'E')) = true then none
        else some (digitsVal (printNatCl n), c :: cs)) = some (n, c :: cs)
    rw [hcond]
    simp [digitsVal_printNatCl]

theorem hexVal_hexNibble (d : Nat) (h : d < 16) : hexVal (hexNibble d) = some d := by
  interval_cases d <;> decide

theorem hex4_cons (n : Nat) (z : List Char) :
    hex4 n ++ z = hexNibble (n / 4096 % 16) :: hexNibble (n / 256 % 16)
      :: hexNibble (n / 16 % 16) :: hexNibble (n % 16) :: z := rfl

theorem strBody_hex4 (pend : Option Nat) (n : Nat) (acc z : List Char) (hn : n < 65536) :
    strBody (.hex pend 0 4) acc (hex4 n ++ z)
      = (match pend with
        | none =>
          if 0xD800 ≤ n ∧ n < 0xDC00 then strBody (.pairSlash n) acc z
          else if 0xDC00 ≤ n ∧ n < 0xE000 then none
          else strBody .norm (Char.ofNat n :: acc) z
        | some hi =>
          if 0xDC00 ≤ n ∧ n < 0xE000 then
            strBody .norm (Char.ofNat (0x10000 + 1024 * (hi - 0xD800) + (n - 0xDC00)) :: acc) z
          else none) := by
  have e1 := hexVal_hexNibble (n / 4096 % 16) (Nat.mod_lt _ (by omega))
  have e2 := hexVal_hexNibble (n / 256 % 16) (Nat.mod_lt _ (by omega))
  have e3 := hexVal_hexNibble (n / 16 % 16) (Nat.mod_lt _ (by omega))
  have e4 := hexVal_hexNibble (n % 16) (Nat.mod_lt _ (by omega))
  have hval : 16 * (16 * (16 * (n / 4096 % 16) + n / 256 % 16) + n / 16 % 16) + n % 16
      = n := by omega
  rw [hex4_cons]
  simp only [strBody, e1, e2, e3, e4]
  norm_num
  rw [hval]

theorem strBody_hex4_none (n : Nat) (acc z : List Char) (hn : n < 65536) :
    strBody (.hex none 0 4) acc (hex4 n ++ z)
      = (if 0xD800 ≤ n ∧ n < 0xDC00 then strBody (.pairSlash n) acc z
        else if 0xDC00 ≤ n ∧ n < 0xE000 then none
        else strBody .norm (Char.ofNat n :: acc) z) :=
  strBody_hex4 none n acc z hn

theorem strBody_hex4_some (hi n : Nat) (acc z : List Char) (hn : n < 65536) :
    strBody (.hex (some hi) 0 4) acc (hex4 n ++ z)
      = (if 0xDC00 ≤ n ∧ n < 0xE000 then
          strBody .norm (Char.ofNat (0x10000 + 1024 * (hi - 0xD800) + (n - 0xDC00)) :: acc) z
        else none) :=
  strBody_hex4 (some hi) n acc z hn

theorem strBody_u (acc z : List Char) :
    strBody .norm acc ('\\' :: 'u' :: z) = strBody (.hex none 0 4) acc z := by
  simp [strBody]

theorem strBody_pair_u (hi : Nat) (acc z : List Char) :
    strBody (.pairSlash hi) acc ('\\' :: 'u' :: z) = strBody (.hex (some hi) 0 4) acc z := by
  simp [strBody]

theorem strBody_esc (c : Char) (acc z : List Char) :
    strBody .norm acc (escChar c ++ z) = strBody .norm (c :: acc) z := by
  have hv := char_valid_nat c
  rw [Nat.isValidChar] at hv
  by_cases h1 : c = '"'
  · subst h1; simp [escChar, strBody]
  by_cases h2 : c = '\\'
  · subst h2; simp [escChar, strBody]
  by_cases h3 : c.toNat = 8
  · have hc : c = Char.ofNat 8 := char_eq_of_toNat _ _ (by rw [h3]; decide)
    subst hc; simp [escChar, strBody]
  by_cases h4 : c.toNat = 9
  · have hc : c = Char.ofNat 9 := char_eq_of_toNat _ _ (by rw [h4]; decide)
    subst hc; simp [escChar, strBody]
  by_cases h5 : c.toNat = 10
  · have hc : c = Char.ofNat 10 := char_eq_of_toNat _ _ (by rw [h5]; decide)
    subst hc; simp [escChar, strBody]
  by_cases h6 : c.toNat = 12
  · have hc : c = Char.ofNat 12 := char_eq_of_toNat _ _ (by rw [h6]; decide)
    subst hc; simp [escChar, strBody]
  by_cases h7 : c.toNat = 13
  · have hc : c = Char.ofNat 13 := char_eq_of_toNat _ _ (by rw [h7]; decide)
    subst hc; simp [escChar, strBody]
  by_cases h8 : c.toNat < 32
  · have hesc : escChar c = '\\' :: 'u' :: hex4 c.toNat := by
      simp only [escChar]
      rw [if_neg h1, if_neg h2, if_neg h3, if_neg h4, if_neg h5, if_neg h6, if_neg h7,
        if_pos h8]
    rw [hesc, List.cons_append, List.cons_append, strBody_u,
      strBody_hex4_none c.toNat acc z (by omega)]
    rw [if_neg (by omega), if_neg (by omega), Char.ofNat_toNat]
  by_cases h9 : c.toNat < 127
  · have hesc : escChar c = [c] := by
      simp only [escChar]
      rw [if_neg h1, if_neg h2, if_neg h3, if_neg h4, if_neg h5, if_neg h6, if_neg h7,
        if_neg h8, if_pos h9]
    rw [hesc, List.cons_append, List.nil_append, strBody, if_neg h1, if_neg h2]
  by_cases h10 : c.toNat < 65536
  · have hesc : escChar c = '\\' :: 'u' :: hex4 c.toNat := by
      simp only [escChar]
      rw [if_neg h1, if_neg h2, if_neg h3, if_neg h4, if_neg h5, if_neg h6, if_neg h7,
        if_neg h8, if_neg h9, if_pos h10]
    rw [hesc, List.cons_append, List.cons_append, strBody_u,
      strBody_hex4_none c.toNat acc z (by omega)]
    rw [if_neg (by omega), if_neg (by omega), Char.ofNat_toNat]
  · have hesc : escChar c = ('\\' :: 'u' :: hex4 (0xD800 + (c.toNat - 0x10000) / 1024))
        ++ ('\\' :: 'u' :: hex4 (0xDC00 + (c.toNat - 0x10000) % 1024)) := by
      simp only [escChar]
      rw [if_neg h1, if_neg h2, if_neg h3, if_neg h4, if_neg h5, if_neg h6, if_neg h7,
        if_neg h8, if_neg h9, if_neg h10]
    have hm : c.toNat - 0x10000 < 0x100000 := by omega
    rw [hesc]
    rw [show (('\\' :: 'u' :: hex4 (0xD800 + (c.toNat - 0x10000) / 1024))
        ++ ('\\' :: 'u' :: hex4 (0xDC00 + (c.toNat - 0x10000) % 1024))) ++ z
      = '\\' :: 'u' :: (hex4 (0xD800 + (c.toNat - 0x10000) / 1024)
        ++ ('\\' :: 'u' :: (hex4 (0xDC00 + (c.toNat - 0x10000) % 1024) ++ z))) by
      simp]
    rw [strBody_u, strBody_hex4_none _ acc _ (by omega)]
    rw [if_pos (show (55296 ≤ 55296 + (c.toNat - 65536) / 1024
      ∧ 55296 + (c.toNat - 65536) / 1024 < 56320) by constructor <;> omega)]
    rw [strBody_pair_u, strBody_hex4_some _ _ acc z (by omega)]
    rw [if_pos (show (56320 ≤ 56320 + (c.toNat - 65536) % 1024
      ∧ 56320 + (c.toNat - 65536) % 1024 < 57344) by constructor <;> omega)]
    have harith : 0x10000 + 1024 * ((0xD800 + (c.toNat - 0x10000) / 1024) - 0xD800)
        + ((0xDC00 + (c.toNat - 0x10000) % 1024) - 0xDC00) = c.toNat := by omega
    rw [harith, Char.ofNat_toNat]

theorem strBody_escCl : ∀ (s : List Char) (acc rest : List Char),
    strBody .norm acc (escCl s ++ '"' :: rest) = some (acc.reverse ++ s, rest) := by
  intro s
  induction s with
  | nil =>
    intro acc rest
    show strBody .norm acc ('"' :: rest) = _
    simp [strBody]
  | cons c cs ih =>
    intro acc rest
    have : escCl (c :: cs) ++ '"' :: rest = escChar c ++ (escCl cs ++ '"' :: rest) := by
      simp [escCl]
    rw [this, strBody_esc, ih]
    simp

theorem skipWs_cons_ws (c : Char) (l : List Char) (h : isJsonWs c = true) :
    skipWs (c :: l) = skipWs l := by
  rw [skipWs, if_pos h]

theorem skipWs_cons_not (c : Char) (l : List Char) (h : isJsonWs c = false) :
    skipWs (c :: l) = c :: l := by
  rw [skipWs, if_neg (by simp [h])]

theorem digit_facts (c : Char) (h : isDigitCh c = true) :
    isJsonWs c = false ∧ c ≠ 'n' ∧ c ≠ 't' ∧ c ≠ 'f' ∧ c ≠ '"' ∧ c ≠ '['
      ∧ c ≠ Char.ofNat 123 ∧ c ≠ '-' ∧ c ≠ ']' ∧ c ≠ Char.ofNat 125 ∧ c ≠ ',' := by
  rw [isDigitCh] at h
  simp only [Bool.and_eq_true, decide_eq_true_eq] at h
  have hne : ∀ d : Char, (d.toNat < 48 ∨ 57 < d.toNat) → c ≠ d := fun d hd =>
    char_ne_of_toNat _ _ (by omega)
  refine ⟨?_, hne 'n' (by decide), hne 't' (by decide), hne 'f' (by decide),
    hne '"' (by decide), hne '[' (by decide), hne (Char.ofNat 123) (by decide),
    hne '-' (by decide), hne ']' (by decide), hne (Char.ofNat 125) (by decide),
    hne ',' (by decide)⟩
  rw [isJsonWs]
  simp [hne ' ' (by decide), hne '\t' (by decide), hne '\n' (by decide),
    hne (Char.ofNat 13) (by decide)]

theorem goodHead_append (l z : List Char) (h : goodHead l) : goodHead (l ++ z) := by
  cases l with
  | nil => exact absurd h (by simp [goodHead])
  | cons c cs => exact h

theorem skipWs_goodHead (l : List Char) (h : goodHead l) : skipWs l = l := by
  cases l with
  | nil => rfl
  | cons c cs => exact skipWs_cons_not c cs h.1

theorem head_ne_rbrack (l : List Char) (h : goodHead l) : ¬ l.head? = some ']' := by
  cases l with
  | nil => simp
  | cons c cs =>
    simp only [List.head?_cons, Option.some.injEq]
    exact h.2.1

theorem head_ne_rbrace (l : List Char) (h : goodHead l) : ¬ l.head? = some (Char.ofNat 125) := by
  cases l with
  | nil => simp
  | cons c cs =>
    simp only [List.head?_cons, Option.some.injEq]
    exact h.2.2.1

theorem printNatCl_cons (n : Nat) : ∃ c cs, printNatCl n = c :: cs ∧ isDigitCh c = true := by
  rcases hx : printNatCl n with _ | ⟨c, cs⟩
  · exact absurd hx (printNatCl_ne_nil n)
  · exact ⟨c, cs, rfl, printNatCl_digits n c (hx ▸ List.mem_cons_self _ _)⟩

theorem jweight_pos : ∀ v : Json, 1 ≤ jweight v := by
  intro v
  cases v with
  | arr xs => cases xs <;> simp [jweight]
  | obj kvs => cases kvs <;> simp [jweight]
  | null => simp [jweight]
  | bool b => simp [jweight]
  | num n => simp [jweight]
  | str s => simp [jweight]

theorem dumpCl_goodHead : ∀ v : Json, goodHead (dumpCl v) := by
  intro v
  cases v with
  | null => exact ⟨by decide, by decide, by decide, by decide⟩
  | bool b => cases b <;> exact ⟨by decide, by decide, by decide, by decide⟩
  | str s => exact ⟨by decide, by decide, by decide, by decide⟩
  | arr xs => exact ⟨by decide, by decide, by decide, by decide⟩
  | obj kvs => exact ⟨by decide, by decide, by decide, by decide⟩
  | num n =>
    by_cases hn : n < 0
    · have : dumpCl (.num n) = '-' :: printNatCl n.natAbs := by
        simp [dumpCl, printIntCl, if_pos hn]
      rw [this]
      exact ⟨by decide, by decide, by decide, by decide⟩
    · rcases printNatCl_cons n.natAbs with ⟨c, cs, hpr, hdig⟩
      have : dumpCl (.num n) = c :: cs := by
        simp [dumpCl, printIntCl, if_neg hn, hpr]
      rw [this]
      have hf := digit_facts c hdig
      exact ⟨hf.1, hf.2.2.2.2.2.2.2.2.1, hf.2.2.2.2.2.2.2.2.2.1, hf.2.2.2.2.2.2.2.2.2.2⟩

theorem dumpElems_goodHead (xs : List Json) (h : xs ≠ []) : goodHead (dumpElems xs) := by
  cases xs with
  | nil => exact absurd rfl h
  | cons x r =>
    cases r with
    | nil => exact dumpCl_goodHead x
    | cons y r2 =>
      show goodHead (dumpCl x ++ _)
      exact goodHead_append _ _ (dumpCl_goodHead x)

theorem parseValue_cons_ws (fuel : Nat) (c : Char) (l : List Char) (h : isJsonWs c = true) :
    parseValue fuel (c :: l) = parseValue fuel l := by
  cases fuel with
  | zero => rfl
  | succ f => rw [parseValue, parseValue, skipWs_cons_ws c l h]

theorem parseElems_cons_ws (fuel : Nat) (c : Char) (l : List Char) (h : isJsonWs c = true) :
    parseElems fuel (c :: l) = parseElems fuel l := by
  cases fuel with
  | zero => rfl
  | succ f => rw [parseElems, parseElems, parseValue_cons_ws f c l h]

theorem parseMembers_cons_ws (fuel : Nat) (c : Char) (l : List Char) (h : isJsonWs c = true) :
    parseMembers fuel (c :: l) = parseMembers fuel l := by
  cases fuel with
  | zero => rfl
  | succ f => rw [parseMembers, parseMembers, skipWs_cons_ws c l h]

theorem parseValue_head (f : Nat) (c : Char) (r : List Char) (hws : isJsonWs c = false) :
    parseValue (f + 1) (c :: r) =
      (if c = 'n' then
        (if leadsCl ['u', 'l', 'l'] r then some (.null, r.drop 3) else none)
      else if c = 't' then
        (if leadsCl ['r', 'u', 'e'] r then some (.bool true, r.drop 3) else none)
      else if c = 'f' then
        (if leadsCl ['a', 'l', 's', 'e'] r then some (.bool false, r.drop 4) else none)
      else if c = '"' then
        (strBody .norm [] r).map (fun p => (.str (String.mk p.1), p.2))
      else if c = '[' then
        (if (skipWs r).head? = some ']' then some (.arr [], (skipWs r).tail)
         else (parseElems f (skipWs r)).map (fun p => (.arr p.1, p.2)))
      else if c = Char.ofNat 123 then
        (if (skipWs r).head? = some (Char.ofNat 125) then some (.obj [], (skipWs r).tail)
         else (parseMembers f (skipWs r)).map (fun p => (.obj p.1, p.2)))
      else if c = '-' then
        (parseNumCl r).map (fun p => (.num (-(p.1 : Int)), p.2))
      else if isDigitCh c then
        (parseNumCl (c :: r)).map (fun p => (.num (p.1 : Int), p.2))
      else none) := by
  rw [parseValue, skipWs_cons_not c r hws]

theorem parseValue_dash (f : Nat) (r : List Char) :
    parseValue (f + 1) ('-' :: r) =
      (parseNumCl r).map (fun p => (.num (-(p.1 : Int)), p.2)) := rfl

theorem parseValue_quote (f : Nat) (r : List Char) :
    parseValue (f + 1) ('"' :: r) =
      (strBody .norm [] r).map (fun p => (.str (String.mk p.1), p.2)) := rfl

theorem parseValue_lbrack (f : Nat) (r : List Char) :
    parseValue (f + 1) ('[' :: r) =
      (if (skipWs r).head? = some ']' then some (.arr [], (skipWs r).tail)
       else (parseElems f (skipWs r)).map (fun p => (.arr p.1, p.2))) := rfl

theorem parseValue_lbrace (f : Nat) (r : List Char) :
    parseValue (f + 1) (Char.ofNat 123 :: r) =
      (if (skipWs r).head? = some (Char.ofNat 125) then some (.obj [], (skipWs r).tail)
       else (parseMembers f (skipWs r)).map (fun p => (.obj p.1, p.2))) := rfl

theorem parseValue_digit (f : Nat) (c : Char) (r : List Char) (h : isDigitCh c = true) :
    parseValue (f + 1) (c :: r) =
      (parseNumCl (c :: r)).map (fun p => (.num (p.1 : Int), p.2)) := by
  obtain hf := digit_facts c h
  rw [parseValue_head f c r hf.1, if_neg hf.2.1, if_neg hf.2.2.1, if_neg hf.2.2.2.1,
    if_neg hf.2.2.2.2.1, if_neg hf.2.2.2.2.2.1, if_neg hf.2.2.2.2.2.2.1,
    if_neg hf.2.2.2.2.2.2.2.1, if_pos h]

theorem parseElems_step (f : Nat) (l r : List Char) (v : Json)
    (h : parseValue f l = some (v, r)) :
    parseElems (f + 1) l =
      (if (skipWs r).head? = some ',' then
        (parseElems f (skipWs r).tail).map (fun p => (v :: p.1, p.2))
      else if (skipWs r).head? = some ']' then some ([v], (skipWs r).tail)
      else none) := by
  rw [parseElems, h]

theorem parseMembers_quote (f : Nat) (r : List Char) :
    parseMembers (f + 1) ('"' :: r) =
      (match strBody .norm [] r with
      | none => none
      | some (kcl, r2) =>
        if (skipWs r2).head? = some ':' then
          match parseValue f (skipWs r2).tail with
          | none => none
          | some (v, r4) =>
            if (skipWs r4).head? = some ',' then
              (parseMembers f (skipWs r4).tail).map (fun p => ((String.mk kcl, v) :: p.1, p.2))
            else if (skipWs r4).head? = some (Char.ofNat 125) then
              some ([(String.mk kcl, v)], (skipWs r4).tail)
            else none
        else none) := rfl

theorem parseMembers_step (f : Nat) (s X r4 : List Char) (v : Json)
    (hv : parseValue f (' ' :: X) = some (v, r4)) :
    parseMembers (f + 1) ('"' :: (escCl s ++ '"' :: (':' :: ' ' :: X))) =
      (if (skipWs r4).head? = some ',' then
        (parseMembers f (skipWs r4).tail).map (fun p => ((String.mk s, v) :: p.1, p.2))
      else if (skipWs r4).head? = some (Char.ofNat 125) then
        some ([(String.mk s, v)], (skipWs r4).tail)
      else none) := by
  rw [parseMembers_quote, strBody_escCl]
  show (match parseValue f (' ' :: X) with
      | none => none
      | some (v, r4) =>
        if (skipWs r4).head? = some ',' then
          (parseMembers f (skipWs r4).tail).map
            (fun p => ((String.mk (List.reverse [] ++ s), v) :: p.1, p.2))
        else if (skipWs r4).head? = some (Char.ofNat 125) then
          some ([(String.mk (List.reverse [] ++ s), v)], (skipWs r4).tail)
        else none : Option (List (String × Json) × List Char)) = _
  rw [hv]
  simp only [List.reverse_nil, List.nil_append]

theorem goodHead_quote (l z : List Char) : goodHead (quoteCl l ++ z) :=
  ⟨by decide, by decide, by decide, by decide⟩

theorem dumpMembers_goodHead (kvs : List (String × Json)) (h : kvs ≠ []) :
    goodHead (dumpMembers kvs) := by
  cases kvs with
  | nil => exact absurd rfl h
  | cons kv r =>
    cases r with
    | nil => exact goodHead_quote _ _
    | cons kv2 r2 => exact goodHead_append _ _ (goodHead_quote _ _)

theorem parse_dump_all : ∀ k : Nat,
    (∀ v : Json, jweight v ≤ k → ∀ (rest : List Char) (fuel : Nat), numStop rest →
      jweight v ≤ fuel → parseValue fuel (dumpCl v ++ rest) = some (v, rest)) ∧
    (∀ xs : List Json, xs ≠ [] → jweightElems xs ≤ k → ∀ (rest : List Char) (fuel : Nat),
      jweightElems xs ≤ fuel →
      parseElems fuel (dumpElems xs ++ ']' :: rest) = some (xs, rest)) ∧
    (∀ kvs : List (String × Json), kvs ≠ [] → jweightMembers kvs ≤ k →
      ∀ (rest : List Char) (fuel : Nat), jweightMembers kvs ≤ fuel →
      parseMembers fuel (dumpMembers kvs ++ Char.ofNat 125 :: rest) = some (kvs, rest)) := by
  intro k
  induction k using Nat.strong_induction_on with
  | _ k IH =>
    refine ⟨?_, ?_, ?_⟩
    · intro v hk rest fuel hstop hfuel
      obtain ⟨f, rfl⟩ : ∃ f, fuel = f + 1 := by
        cases fuel with
        | zero => exact absurd hfuel (by have := jweight_pos v; omega)
        | succ f => exact ⟨f, rfl⟩
      cases v with
      | null => rfl
      | bool b => cases b <;> rfl
      | num n =>
        by_cases hn : n < 0
        · have hd : dumpCl (.num n) ++ rest = '-' :: (printNatCl n.natAbs ++ rest) := by
            simp [dumpCl, printIntCl, if_pos hn]
          rw [hd, parseValue_dash, parseNumCl_print _ _ hstop]
          have hval : (-(n.natAbs : Int)) = n := by omega
          simp only [Option.map_some']
          rw [hval]
        · have hd : dumpCl (.num n) ++ rest = printNatCl n.natAbs ++ rest := by
            simp [dumpCl, printIntCl, if_neg hn]
          rcases printNatCl_cons n.natAbs with ⟨c, cs, hpr, hdig⟩
          rw [hd, hpr, List.cons_append, parseValue_digit f c (cs ++ rest) hdig,
            ← List.cons_append, ← hpr, parseNumCl_print _ _ hstop]
          have hval : ((n.natAbs : Nat) : Int) = n := by omega
          simp only [Option.map_some']
          rw [hval]
      | str s =>
        have hd : dumpCl (.str s) ++ rest = '"' :: (escCl s.data ++ '"' :: rest) := by
          simp [dumpCl, quoteCl]
        rw [hd, parseValue_quote, strBody_escCl]
        simp [string_mk_data]
      | arr xs =>
        cases xs with
        | nil => rfl
        | cons x r =>
          have hd : dumpCl (.arr (x :: r)) ++ rest
              = '[' :: (dumpElems (x :: r) ++ ']' :: rest) := by
            simp [dumpCl]
          have hgh : goodHead (dumpElems (x :: r) ++ ']' :: rest) :=
            goodHead_append _ _ (dumpElems_goodHead _ (by simp))
          have hk1 : 1 + jweightElems (x :: r) ≤ k := hk
          have hf1 : 1 + jweightElems (x :: r) ≤ f + 1 := hfuel
          have hQ := (IH (jweightElems (x :: r)) (by omega)).2.1 (x :: r) (by simp)
            (le_refl _) rest f (by omega)
          rw [hd, parseValue_lbrack, skipWs_goodHead _ hgh,
            if_neg (head_ne_rbrack _ hgh), hQ]
          rfl
      | obj kvs =>
        cases kvs with
        | nil => rfl
        | cons kv r =>
          have hd : dumpCl (.obj (kv :: r)) ++ rest
              = Char.ofNat 123 :: (dumpMembers (kv :: r) ++ Char.ofNat 125 :: rest) := by
            simp [dumpCl]
          have hgh : goodHead (dumpMembers (kv :: r) ++ Char.ofNat 125 :: rest) :=
            goodHead_append _ _ (dumpMembers_goodHead _ (by simp))
          have hk1 : 1 + jweightMembers (kv :: r) ≤ k := hk
          have hf1 : 1 + jweightMembers (kv :: r) ≤ f + 1 := hfuel
          have hR := (IH (jweightMembers (kv :: r)) (by omega)).2.2 (kv :: r) (by simp)
            (le_refl _) rest f (by omega)
          rw [hd, parseValue_lbrace, skipWs_goodHead _ hgh,
            if_neg (head_ne_rbrace _ hgh), hR]
          rfl
    · intro xs hne hk rest fuel hfuel
      cases xs with
      | nil => exact absurd rfl hne
      | cons x r =>
        obtain ⟨f, rfl⟩ : ∃ f, fuel = f + 1 := by
          cases fuel with
          | zero =>
            have h1 : 1 + jweight x + jweightElems r ≤ 0 := hfuel
            exact absurd h1 (by omega)
          | succ f => exact ⟨f, rfl⟩
        have hk1 : 1 + jweight x + jweightElems r ≤ k := hk
        have hf1 : 1 + jweight x + jweightElems r ≤ f + 1 := hfuel
        cases r with
        | nil =>
          have hP := (IH (jweight x) (by omega)).1 x (le_refl _) (']' :: rest) f
            ⟨by decide, by decide, by decide, by decide⟩ (by omega)
          rw [show dumpElems [x] = dumpCl x from rfl,
            parseElems_step f _ (']' :: rest) x hP, skipWs_cons_not _ _ (by decide),
            List.head?_cons, if_neg (by decide), if_pos rfl]
          rfl
        | cons y r2 =>
          have hd : dumpElems (x :: y :: r2) ++ ']' :: rest
              = dumpCl x ++ (',' :: ' ' :: (dumpElems (y :: r2) ++ ']' :: rest)) := by
            simp [dumpElems]
          have hpx := jweight_pos x
          have hP := (IH (jweight x) (by omega)).1 x (le_refl _)
            (',' :: ' ' :: (dumpElems (y :: r2) ++ ']' :: rest)) f
            ⟨by decide, by decide, by decide, by decide⟩ (by omega)
          have hQ := (IH (jweightElems (y :: r2)) (by omega)).2.1 (y :: r2) (by simp)
            (le_refl _) rest f (by omega)
          rw [hd, parseElems_step f _ _ x hP, skipWs_cons_not _ _ (by decide),
            List.head?_cons, if_pos rfl, List.tail_cons,
            parseElems_cons_ws f ' ' _ (by decide), hQ]
          rfl
    · intro kvs hne hk rest fuel hfuel
      cases kvs with
      | nil => exact absurd rfl hne
      | cons kv r =>
        obtain ⟨f, rfl⟩ : ∃ f, fuel = f + 1 := by
          cases fuel with
          | zero =>
            have h1 : 1 + jweight kv.2 + jweightMembers r ≤ 0 := hfuel
            exact absurd h1 (by omega)
          | succ f => exact ⟨f, rfl⟩
        have hk1 : 1 + jweight kv.2 + jweightMembers r ≤ k := hk
        have hf1 : 1 + jweight kv.2 + jweightMembers r ≤ f + 1 := hfuel
        cases r with
        | nil =>
          have hd : dumpMembers [kv] ++ Char.ofNat 125 :: rest
              = '"' :: (escCl kv.1.data ++ '"' ::
                (':' :: ' ' :: (dumpCl kv.2 ++ Char.ofNat 125 :: rest))) := by
            simp [dumpMembers, quoteCl]
          have hP := (IH (jweight kv.2) (by omega)).1 kv.2 (le_refl _)
            (Char.ofNat 125 :: rest) f
            ⟨by decide, by decide, by decide, by decide⟩ (by omega)
          have hP2 : parseValue f (' ' :: (dumpCl kv.2 ++ Char.ofNat 125 :: rest))
              = some (kv.2, Char.ofNat 125 :: rest) := by
            rw [parseValue_cons_ws f ' ' _ (by decide), hP]
          rw [hd, parseMembers_step f kv.1.data _ _ kv.2 hP2,
            skipWs_cons_not _ _ (by decide), List.head?_cons, if_neg (by decide),
            if_pos rfl, List.tail_cons, string_mk_data]
        | cons kv2 r2 =>
          have hd : dumpMembers (kv :: kv2 :: r2) ++ Char.ofNat 125 :: rest
              = '"' :: (escCl kv.1.data ++ '"' ::
                (':' :: ' ' :: (dumpCl kv.2 ++
                  (',' :: ' ' :: (dumpMembers (kv2 :: r2) ++ Char.ofNat 125 :: rest))))) := by
            simp [dumpMembers, quoteCl]
          have hpx := jweight_pos kv.2
          have hP := (IH (jweight kv.2) (by omega)).1 kv.2 (le_refl _)
            (',' :: ' ' :: (dumpMembers (kv2 :: r2) ++ Char.ofNat 125 :: rest)) f
            ⟨by decide, by decide, by decide, by decide⟩ (by omega)
          have hP2 : parseValue f (' ' :: (dumpCl kv.2 ++
              (',' :: ' ' :: (dumpMembers (kv2 :: r2) ++ Char.ofNat 125 :: rest))))
              = some (kv.2, ',' :: ' ' :: (dumpMembers (kv2 :: r2) ++ Char.ofNat 125 :: rest)) := by
            rw [parseValue_cons_ws f ' ' _ (by decide), hP]
          have hR := (IH (jweightMembers (kv2 :: r2)) (by omega)).2.2 (kv2 :: r2) (by simp)
            (le_refl _) rest f (by omega)
          rw [hd, parseMembers_step f kv.1.data _ _ kv.2 hP2,
            skipWs_cons_not _ _ (by decide), List.head?_cons, if_pos rfl,
            List.tail_cons, parseMembers_cons_ws f ' ' _ (by decide), hR,
            string_mk_data]
          rfl

theorem jweight_le_all : ∀ k : Nat,
    (∀ v : Json, jweight v ≤ k → jweight v ≤ (dumpCl v).length) ∧
    (∀ xs : List Json, jweightElems xs ≤ k → jweightElems xs ≤ (dumpElems xs).length + 1) ∧
    (∀ kvs : List (String × Json), jweightMembers kvs ≤ k →
      jweightMembers kvs ≤ (dumpMembers kvs).length + 1) := by
  intro k
  induction k using Nat.strong_induction_on with
  | _ k IH =>
    refine ⟨?_, ?_, ?_⟩
    · intro v hk
      cases v with
      | null => simp [jweight, dumpCl]
      | bool b => cases b <;> simp [jweight, dumpCl]
      | str s => simp [jweight, dumpCl, quoteCl]
      | num n =>
        rcases printNatCl_cons n.natAbs with ⟨c, cs, hpr, _⟩
        by_cases hn : n < 0
        · simp [jweight, dumpCl, printIntCl, if_pos hn]
        · simp [jweight, dumpCl, printIntCl, if_neg hn, hpr]
      | arr xs =>
        cases xs with
        | nil => simp [jweight, dumpCl, dumpElems]
        | cons x r =>
          have hk1 : 1 + jweightElems (x :: r) ≤ k := hk
          have hQ := (IH (jweightElems (x :: r)) (by omega)).2.1 (x :: r) (le_refl _)
          have hlen := congrArg List.length
            (show dumpCl (.arr (x :: r)) = '[' :: (dumpElems (x :: r) ++ [']']) from rfl)
          simp at hlen
          show 1 + jweightElems (x :: r) ≤ _
          omega
      | obj kvs =>
        cases kvs with
        | nil => simp [jweight, dumpCl, dumpMembers]
        | cons kv r =>
          have hk1 : 1 + jweightMembers (kv :: r) ≤ k := hk
          have hR := (IH (jweightMembers (kv :: r)) (by omega)).2.2 (kv :: r) (le_refl _)
          have hlen := congrArg List.length
            (show dumpCl (.obj (kv :: r))
              = Char.ofNat 123 :: (dumpMembers (kv :: r) ++ [Char.ofNat 125]) from rfl)
          simp at hlen
          show 1 + jweightMembers (kv :: r) ≤ _
          omega
    · intro xs hk
      cases xs with
      | nil => simp [jweightElems]
      | cons x r =>
        have hk1 : 1 + jweight x + jweightElems r ≤ k := hk
        have hpx := jweight_pos x
        have hP := (IH (jweight x) (by omega)).1 x (le_refl _)
        show 1 + jweight x + jweightElems r ≤ _
        cases r with
        | nil =>
          have hlen := congrArg List.length (show dumpElems [x] = dumpCl x from rfl)
          simp [jweightElems]
          omega
        | cons y r2 =>
          have hQ := (IH (jweightElems (y :: r2)) (by omega)).2.1 (y :: r2) (le_refl _)
          have hlen := congrArg List.length
            (show dumpElems (x :: y :: r2)
              = dumpCl x ++ ',' :: ' ' :: dumpElems (y :: r2) from rfl)
          simp at hlen
          omega
    · intro kvs hk
      cases kvs with
      | nil => simp [jweightMembers]
      | cons kv r =>
        have hk1 : 1 + jweight kv.2 + jweightMembers r ≤ k := hk
        have hpx := jweight_pos kv.2
        have hP := (IH (jweight kv.2) (by omega)).1 kv.2 (le_refl _)
        show 1 + jweight kv.2 + jweightMembers r ≤ _
        cases r with
        | nil =>
          have hlen := congrArg List.length
            (show dumpMembers [kv]
              = ('"' :: (escCl kv.1.data ++ ['"'])) ++ ':' :: ' ' :: dumpCl kv.2 from rfl)
          simp at hlen
          simp [jweightMembers]
          omega
        | cons kv2 r2 =>
          have hR := (IH (jweightMembers (kv2 :: r2)) (by omega)).2.2 (kv2 :: r2) (le_refl _)
          have hlen := congrArg List.length
            (show dumpMembers (kv :: kv2 :: r2)
              = (('"' :: (escCl kv.1.data ++ ['"'])) ++ ':' :: ' ' :: dumpCl kv.2)
                ++ ',' :: ' ' :: dumpMembers (kv2 :: r2) from rfl)
          simp at hlen
          omega

theorem jweight_le_dumpLen (v : Json) : jweight v ≤ (dumpCl v).length :=
  (jweight_le_all (jweight v)).1 v (le_refl _)

theorem parseTop_dumpJson (v : Json) : parseTop (dumpJson v) = some v := by
  have h := (parse_dump_all (jweight v)).1 v (le_refl _) [] ((dumpCl v).length + 1)
    trivial (by have := jweight_le_dumpLen v; omega)
  rw [List.append_nil] at h
  rw [parseTop, show (dumpJson v).data = dumpCl v from rfl, h]
  rfl

/-- C5: for every engine state, agent_id, key and representable JSON value v,
set_state followed by get_state returns a value semantically equal to v (the
stored json.dumps text decodes back to v), and the stored version is bumped to
one more than the previous version on conflict, starting at 1 on first
insert. -/
theorem c5_state_roundtrip (s : EngineState) (agent_id key : String) (v : Json) :
    get_state (set_state s agent_id key v) agent_id key = some (.inl v) ∧
    stateVersion (set_state s agent_id key v) agent_id key =
      some (match stateVersion s agent_id key with
            | some n => n + 1
            | none => 1) := by
  by_cases hany : s.agentState.any
      (fun r => r.agent_id == agent_id && r.key == key) = true
  · have hsome : (s.agentState.find?
        (fun r => r.agent_id == agent_id && r.key == key)).isSome := by
      rw [List.find?_isSome]
      obtain ⟨r, hmem, hpr⟩ := List.any_eq_true.mp hany
      exact ⟨r, hmem, hpr⟩
    obtain ⟨r0, hfind⟩ := Option.isSome_iff_exists.mp hsome
    have hp0' := List.find?_some hfind
    have hp0 : (r0.agent_id == agent_id && r0.key == key) = true := hp0'
    have hset : (set_state s agent_id key v).agentState
        = s.agentState.map (fun r =>
            if r.agent_id == agent_id && r.key == key then
              { r with value := dumpJson v, version := r.version + 1 }
            else r) := by
      simp only [set_state]
      rw [if_pos hany]
    have hpf : ((fun r : StateRow => r.agent_id == agent_id && r.key == key) ∘
        (fun r : StateRow =>
          if r.agent_id == agent_id && r.key == key then
            { r with value := dumpJson v, version := r.version + 1 }
          else r))
        = (fun r : StateRow => r.agent_id == agent_id && r.key == key) := by
      funext r
      simp only [Function.comp_apply]
      by_cases h : (r.agent_id == agent_id && r.key == key) = true
      · rw [if_pos h]
      · rw [if_neg h]
    have hfind2 : ((set_state s agent_id key v).agentState.find?
        (fun r => r.agent_id == agent_id && r.key == key))
        = some { r0 with value := dumpJson v, version := r0.version + 1 } := by
      rw [hset, List.find?_map, hpf, hfind, Option.map_some']
      rw [if_pos hp0]
    constructor
    · rw [get_state, hfind2]
      simp [parseTop_dumpJson]
    · rw [stateVersion, hfind2, stateVersion, hfind]
      rfl
  · have hfindnone : s.agentState.find?
        (fun r => r.agent_id == agent_id && r.key == key) = none := by
      rcases hx : s.agentState.find?
          (fun r => r.agent_id == agent_id && r.key == key) with _ | r0
      · exact hx
      · have hpx := List.find?_some hx
        exact absurd (List.any_eq_true.mpr
          ⟨r0, List.mem_of_find?_eq_some hx, hpx⟩) hany
    have hset : (set_state s agent_id key v).agentState
        = s.agentState ++ [⟨agent_id, key, dumpJson v, 1⟩] := by
      simp only [set_state]
      rw [if_neg hany]
    have hfind2 : ((set_state s agent_id key v).agentState.find?
        (fun r => r.agent_id == agent_id && r.key == key))
        = some ⟨agent_id, key, dumpJson v, 1⟩ := by
      rw [hset, List.find?_append, hfindnone, Option.none_or]
      simp
    constructor
    · rw [get_state, hfind2]
      simp [parseTop_dumpJson]
    · rw [stateVersion, hfind2, stateVersion, hfindnone]
      rfl
